import Mathlib

/-!
Shallow embedding of the incremental full-text search indexing subsystem of
the better-imessage repository, together with proofs about its behaviour.

Embedded source files:
* `server/helpers/text.js` — binary text extractor and message text resolver;
* `server/services/searchIndex.js` — incremental indexer and index query;
* `server/routes/search.js` (`GET /search`) — query engine route;
* `server/helpers/filters.js`, `server/helpers/time.js`, `server/config.js` —
  supporting helpers and constants.

Buffers are modelled as lists of byte values (`List Nat`), JavaScript strings
as Lean `String`s with explicit JS-faithful `trim` / UTF-16 `length`
functions, SQL tables as lists of rows, and the SQLite transaction of a batch
as an explicit pending/committed interpreter.  The external `bplist-parser`
library (a node_modules dependency, not repository code) is modelled as an
oracle parameter `parse : List Nat → Option PlistTop` where `none` means the
parse threw or produced no document, exactly the two cases the repository
code treats alike.
-/

/-- Characters removed by JavaScript `String.prototype.trim`:
the ECMAScript WhiteSpace and LineTerminator sets. -/
def jsWhitespace (c : Char) : Bool :=
  c.toNat == 0x20 || c.toNat == 0x09 || c.toNat == 0x0a || c.toNat == 0x0d ||
  c.toNat == 0x0b || c.toNat == 0x0c || c.toNat == 0xa0 || c.toNat == 0xfeff ||
  c.toNat == 0x1680 || (decide (0x2000 ≤ c.toNat) && decide (c.toNat ≤ 0x200a)) ||
  c.toNat == 0x2028 || c.toNat == 0x2029 || c.toNat == 0x202f ||
  c.toNat == 0x205f || c.toNat == 0x3000

/-- JavaScript `String.prototype.trim`: strip leading and trailing
whitespace. -/
def jsTrim (s : String) : String :=
  ⟨((s.data.dropWhile jsWhitespace).reverse.dropWhile jsWhitespace).reverse⟩

/-- JavaScript `String.prototype.length`: the number of UTF-16 code units
(astral-plane characters count twice). -/
def jsLength (s : String) : Nat :=
  s.data.foldl (fun n c => n + (if 0x10000 ≤ c.toNat then 2 else 1)) 0

/-- Index of the first occurrence of byte `b` in a byte list
(`Buffer.indexOf(b)` relative form). -/
def findByte (b : Nat) : List Nat → Option Nat
  | [] => none
  | d :: ds => if d = b then some 0 else (findByte b ds).map (· + 1)

/-- `Buffer.prototype.indexOf(b, start)`: absolute index of the first
occurrence of byte `b` at position `≥ start`. -/
def indexOfByteFrom (data : List Nat) (b start : Nat) : Option Nat :=
  (findByte b (data.drop start)).map (· + start)

/-- Index of the first occurrence of the byte sequence `pat`
(`Buffer.prototype.indexOf(pat)`). -/
def findSeq (pat : List Nat) : List Nat → Option Nat
  | [] => if pat.isEmpty then some 0 else none
  | d :: ds => if pat.isPrefixOf (d :: ds) then some 0 else (findSeq pat ds).map (· + 1)

/-- The Unicode replacement character U+FFFD. -/
def uFFFD : Char := Char.ofNat 0xfffd

/-- One step per head byte of UTF-8 decoding with U+FFFD replacement for
ill-formed sequences, structurally recursive on explicit fuel (each step
consumes at least one byte, so `length + 1` fuel always suffices). -/
def utf8DecodeGo : Nat → List Nat → List Char
  | 0, _ => []
  | _ + 1, [] => []
  | fuel + 1, b :: rest =>
    if b < 0x80 then Char.ofNat b :: utf8DecodeGo fuel rest
    else if b < 0xc2 then uFFFD :: utf8DecodeGo fuel rest
    else if b < 0xe0 then
      match rest with
      | b1 :: rest2 =>
        if 0x80 ≤ b1 ∧ b1 < 0xc0 then
          Char.ofNat ((b - 0xc0) * 0x40 + (b1 - 0x80)) :: utf8DecodeGo fuel rest2
        else uFFFD :: utf8DecodeGo fuel (b1 :: rest2)
      | [] => [uFFFD]
    else if b < 0xf0 then
      match rest with
      | b1 :: b2 :: rest3 =>
        if (0x80 ≤ b1 ∧ b1 < 0xc0) ∧ (0x80 ≤ b2 ∧ b2 < 0xc0) ∧
            ¬(b = 0xe0 ∧ b1 < 0xa0) ∧ ¬(b = 0xed ∧ 0xa0 ≤ b1) then
          Char.ofNat ((b - 0xe0) * 0x1000 + (b1 - 0x80) * 0x40 + (b2 - 0x80)) ::
            utf8DecodeGo fuel rest3
        else uFFFD :: utf8DecodeGo fuel (b1 :: b2 :: rest3)
      | rest' => uFFFD :: utf8DecodeGo fuel rest'
    else if b < 0xf5 then
      match rest with
      | b1 :: b2 :: b3 :: rest4 =>
        if (0x80 ≤ b1 ∧ b1 < 0xc0) ∧ (0x80 ≤ b2 ∧ b2 < 0xc0) ∧
            (0x80 ≤ b3 ∧ b3 < 0xc0) ∧
            ¬(b = 0xf0 ∧ b1 < 0x90) ∧ ¬(b = 0xf4 ∧ 0x90 ≤ b1) then
          Char.ofNat ((b - 0xf0) * 0x40000 + (b1 - 0x80) * 0x1000 +
              (b2 - 0x80) * 0x40 + (b3 - 0x80)) :: utf8DecodeGo fuel rest4
        else uFFFD :: utf8DecodeGo fuel (b1 :: b2 :: b3 :: rest4)
      | rest' => uFFFD :: utf8DecodeGo fuel rest'
    else uFFFD :: utf8DecodeGo fuel rest

/-- UTF-8 decoding with U+FFFD replacement, modelling
`buffer.toString('utf8')`. -/
def utf8Decode (l : List Nat) : List Char := utf8DecodeGo (l.length + 1) l

/-- `server/helpers/text.js` `cleanExtractedText`: strip a leading and a
trailing run of object-replacement / replacement / ASCII-control characters,
remove every remaining object-replacement character, and trim whitespace. -/
def junkChar (c : Char) : Bool :=
  c.toNat == 0xfffc || c.toNat == 0xfffd || decide (c.toNat ≤ 0x1f)

/-- `cleanExtractedText(text)` from `server/helpers/text.js`. -/
def cleanExtractedText (s : String) : String :=
  let l1 := s.data.dropWhile junkChar
  let l2 := (l1.reverse.dropWhile junkChar).reverse
  let l3 := l2.filter (fun c => c.toNat ≠ 0xfffc)
  jsTrim ⟨l3⟩

/-- `isMetadataString(str)` from `server/helpers/text.js`: the four regex
tests `/^NS[A-Z]/`, `/^\$[a-z]/`, `/^__kIM/`, `/^com\.apple/`. -/
def isMetadataString (s : String) : Bool :=
  (match s.data with
   | 'N' :: 'S' :: c :: _ => decide ('A' ≤ c) && decide (c ≤ 'Z')
   | _ => false) ||
  (match s.data with
   | '$' :: c :: _ => decide ('a' ≤ c) && decide (c ≤ 'z')
   | _ => false) ||
  "__kIM".isPrefixOf s || "com.apple".isPrefixOf s

/-- One element of the `$objects` array of a parsed keyed archive, as far as
`extractTextFromParsedPlist` inspects it: a plain string, an object with an
optional (string-valued) `NS.string` key, or anything else. -/
inductive PlistObj where
  | pstr (s : String)
  | pdict (nsString : Option String)
  | pother
deriving DecidableEq

/-- A parsed binary plist document (`parsed[0]`), as far as the repository
code inspects it: the optional `$objects` array. -/
structure PlistTop where
  objects : Option (List PlistObj)
deriving DecidableEq

/-- The scan loop of `extractTextFromParsedPlist` over the `$objects`
array. -/
def scanObjects : List PlistObj → Option String
  | [] => none
  | PlistObj.pstr s :: rest =>
    if jsLength s > 0 then
      let cleaned := cleanExtractedText s
      if jsLength cleaned > 1 && !isMetadataString cleaned then some cleaned
      else scanObjects rest
    else scanObjects rest
  | PlistObj.pdict ns :: rest =>
    match ns with
    | some s =>
      if s ≠ "" then
        let cleaned := cleanExtractedText s
        if jsLength cleaned > 0 then some cleaned else scanObjects rest
      else scanObjects rest
    | none => scanObjects rest
  | PlistObj.pother :: rest => scanObjects rest

/-- `extractTextFromParsedPlist(plist)` from `server/helpers/text.js`. -/
def extractTextFromParsedPlist (top : PlistTop) : Option String :=
  match top.objects with
  | none => none
  | some objs => scanObjects objs

/-- The literal marker bytes of the string `"NSString"`. -/
def nsStringMarker : List Nat := [0x4e, 0x53, 0x53, 0x74, 0x72, 0x69, 0x6e, 0x67]

/-- The `while (textStart < data.length && data[textStart] < 0x20) textStart++`
loop of the fallback extractor, with explicit fuel (`data.length + 1` always
suffices since the index grows while below the length). -/
def skipControlsGo (data : List Nat) : Nat → Nat → Nat
  | 0, i => i
  | fuel + 1, i =>
    if h : i < data.length then
      if data.get ⟨i, h⟩ < 0x20 then skipControlsGo data fuel (i + 1) else i
    else i

/-- The control-byte skipping loop of the fallback extractor. -/
def skipControls (data : List Nat) (i : Nat) : Nat :=
  skipControlsGo data (data.length + 1) i

/-- The tail of the fallback extractor: locate the `0x86` end marker, compute
`textEnd` (for a positive decoded length the minimum of `textStart + length`
and the end-marker position, otherwise the end-marker position, falling back
to the buffer end), slice, UTF-8-decode, clean, and return the text when it
is non-empty. -/
def finishExtract (data : List Nat) (textStart msgLen : Nat) : Option String :=
  let bound := (indexOfByteFrom data 0x86 textStart).getD data.length
  let textEnd := if msgLen > 0 then min (textStart + msgLen) bound else bound
  let bytes := (data.drop textStart).take (textEnd - textStart)
  let text := cleanExtractedText ⟨utf8Decode bytes⟩
  if jsLength text > 0 then some text else none

/-- The fallback byte-scanning path of `extractTextFromAttributedBody`
(lines 36–90 of `server/helpers/text.js`): find the `NSString` marker, find
the `0x2b` length-prefix marker within 80 bytes, decode the variable-width
length, and hand off to `finishExtract`.  An out-of-range `readUInt16LE` /
`readUInt32LE` throws in JavaScript and is caught by the enclosing
`try { ... } catch { return null }`, so those cases are `none` here. -/
def fallbackExtract (data : List Nat) : Option String :=
  match findSeq nsStringMarker data with
  | none => none
  | some idx =>
    match indexOfByteFrom data 0x2b (idx + 8) with
    | none => none
    | some plusIdx =>
      if plusIdx < idx + 80 then
        let ts0 := plusIdx + 1
        match data.get? ts0 with
        | none => finishExtract data (ts0 + 1) 0
        | some b =>
          if b < 0x80 then finishExtract data (ts0 + 1) b
          else if b = 0x81 then
            match data.get? (ts0 + 1), data.get? (ts0 + 2) with
            | some l0, some l1 => finishExtract data (ts0 + 3) (l0 + 0x100 * l1)
            | _, _ => none
          else if b = 0x82 then
            finishExtract data (ts0 + 4)
              (((data.get? (ts0 + 1)).getD 0) + 0x100 * ((data.get? (ts0 + 2)).getD 0) +
                0x10000 * ((data.get? (ts0 + 3)).getD 0))
          else if b = 0x83 then
            match data.get? (ts0 + 1), data.get? (ts0 + 2),
                data.get? (ts0 + 3), data.get? (ts0 + 4) with
            | some l0, some l1, some l2, some l3 =>
              finishExtract data (ts0 + 5)
                (l0 + 0x100 * l1 + 0x10000 * l2 + 0x1000000 * l3)
            | _, _, _, _ => none
          else finishExtract data (skipControls data (ts0 + 1)) 0
      else none

/-- `extractTextFromAttributedBody(buffer)` from `server/helpers/text.js`.
`buffer = none` models a null/undefined argument; `parse` models
`bplist.parseBuffer` (external library), with `none` standing for "threw or
returned no document". -/
def extractTextFromAttributedBody (parse : List Nat → Option PlistTop)
    (buffer : Option (List Nat)) : Option String :=
  match buffer with
  | none => none
  | some data =>
    let structured :=
      match parse data with
      | some top => extractTextFromParsedPlist top
      | none => none
    match structured with
    | some t => if t ≠ "" then some t else fallbackExtract data
    | none => fallbackExtract data

/-- A `bplist.parseBuffer` oracle for buffers that are not valid binary
plists (no `bplist` magic header): the parse throws, i.e. yields nothing. -/
def noPlist : List Nat → Option PlistTop := fun _ => none

/-- A row of the source message store as selected by the indexer's query
(`m.ROWID, m.text, m.attributedBody, m.date, cmj.chat_id`).  `text` and
`attributedBody` are nullable columns. -/
structure SourceRow where
  message_id : Nat
  text : Option String
  attributedBody : Option (List Nat)
  date : Int
  chat_id : Nat
deriving DecidableEq

/-- `getMessageText(row)` from `server/helpers/text.js` (the §4.2 Message
Text Resolver): the `text` column when truthy with a truthy trim, else the
extractor on `attributedBody` when truthy, else null. -/
def getMessageText (parse : List Nat → Option PlistTop) (row : SourceRow) :
    Option String :=
  match row.text with
  | some t =>
    if jsTrim t ≠ "" then some t
    else
      match row.attributedBody with
      | some blob => extractTextFromAttributedBody parse (some blob)
      | none => none
  | none =>
    match row.attributedBody with
    | some blob => extractTextFromAttributedBody parse (some blob)
    | none => none

/-- A row of the `message_text` table of the search index
(`message_id` is the primary key, kept as the association key). -/
structure IndexEntry where
  text : String
  date : Int
  chat_id : Nat
deriving DecidableEq

/-- The search index database: the `message_text` table (keyed by
`message_id`) and the `last_message_id` metadata row (0 when absent). -/
structure IndexStore where
  entries : List (Nat × IndexEntry)
  lastIndexedId : Nat
deriving DecidableEq

/-- A fresh search index store: empty table, cursor 0. -/
def emptyStore : IndexStore := ⟨[], 0⟩

/-- `INSERT OR REPLACE` keyed on the `message_id` primary key: replace the
existing row for the key, or append a new row. -/
def upsertEntry (id : Nat) (e : IndexEntry) :
    List (Nat × IndexEntry) → List (Nat × IndexEntry)
  | [] => [(id, e)]
  | (k, v) :: rest =>
    if k = id then (id, e) :: rest else (k, v) :: upsertEntry id e rest

/-- Generic insertion into a list sorted by the boolean relation `le`. -/
def insertLe (le : α → α → Bool) (a : α) : List α → List α
  | [] => [a]
  | b :: l => if le a b then a :: b :: l else b :: insertLe le a l

/-- Generic insertion sort by the boolean relation `le`, used to model SQL
`ORDER BY` clauses. -/
def sortLe (le : α → α → Bool) : List α → List α
  | [] => []
  | a :: l => insertLe le a (sortLe le l)

/-- Ascending order on `message_id` (`ORDER BY m.ROWID ASC`). -/
def leById (a b : SourceRow) : Bool := a.message_id ≤ b.message_id

/-- The candidate query of `indexNewMessages`:
`WHERE m.ROWID > lastId ORDER BY m.ROWID ASC LIMIT batchSize`. -/
def selectBatch (src : List SourceRow) (lastId batchSize : Nat) : List SourceRow :=
  (sortLe leById (src.filter (fun r => lastId < r.message_id))).take batchSize

/-- The per-row text resolution inline in `indexNewMessages` (lines 150–165
of `server/services/searchIndex.js`): take the `text` column, consult the
extractor when the column is falsy or trims to fewer than 2 UTF-16 units and
a blob is present, and keep the trimmed result when it is non-blank. -/
def resolveIndexText (parse : List Nat → Option PlistTop) (r : SourceRow) :
    Option String :=
  let textFalsy : Bool := match r.text with | none => true | some t => t == ""
  let t1 : Option String :=
    if (textFalsy || decide (jsLength (jsTrim (r.text.getD "")) < 2)) &&
        r.attributedBody.isSome then
      extractTextFromAttributedBody parse r.attributedBody
    else r.text
  match t1 with
  | some t => if jsTrim t ≠ "" then some (jsTrim t) else none
  | none => none

/-- A single SQL write of a batch: an entry upsert or the cursor update
(`setLastIndexedId`). -/
inductive WriteOp where
  | putEntry (id : Nat) (e : IndexEntry)
  | putCursor (id : Nat)
deriving DecidableEq

/-- Apply one write to the store. -/
def applyOp (st : IndexStore) : WriteOp → IndexStore
  | WriteOp.putEntry id e => { st with entries := upsertEntry id e st.entries }
  | WriteOp.putCursor id => { st with lastIndexedId := id }

/-- The entry upserts a batch issues, in loop order: one per message with
non-blank resolved text. -/
def entryOps (parse : List Nat → Option PlistTop) (msgs : List SourceRow) :
    List WriteOp :=
  msgs.filterMap fun r =>
    (resolveIndexText parse r).map fun t =>
      WriteOp.putEntry r.message_id ⟨t, r.date, r.chat_id⟩

/-- `maxId`: the running `Math.max` over the batch, started at `lastId`. -/
def batchMaxId (lastId : Nat) (msgs : List SourceRow) : Nat :=
  msgs.foldl (fun m r => max m r.message_id) lastId

/-- All writes of one batch transaction, in order: the entry upserts followed
by `setLastIndexedId(maxId)`. -/
def batchOps (parse : List Nat → Option PlistTop) (lastId : Nat)
    (msgs : List SourceRow) : List WriteOp :=
  entryOps parse msgs ++ [WriteOp.putCursor (batchMaxId lastId msgs)]

/-- Run the writes of one SQLite transaction.  `committed` is the store
visible outside the transaction, `pending` the uncommitted state.  A write
failure injected at step `failAt` triggers `ROLLBACK`: the visible store is
the committed one and the error propagates (`Except.error`); reaching the end
is `COMMIT`, making the pending state visible. -/
def runTx (committed pending : IndexStore) (ops : List WriteOp)
    (failAt : Option Nat) (step : Nat) : Except IndexStore IndexStore :=
  match ops with
  | [] => Except.ok pending
  | op :: rest =>
    if failAt = some step then Except.error committed
    else runTx committed (applyOp pending op) rest failAt (step + 1)

/-- `indexNewMessages(batchSize)` from `server/services/searchIndex.js`, with
write-failure injection: select the batch, return 0 on an empty batch, else
run all writes in one transaction and return the number of rows considered.
On failure the error carries the store visible after rollback. -/
def indexNewMessagesTx (parse : List Nat → Option PlistTop)
    (src : List SourceRow) (batchSize : Nat) (st : IndexStore)
    (failAt : Option Nat) : Except IndexStore (Nat × IndexStore) :=
  let msgs := selectBatch src st.lastIndexedId batchSize
  if msgs.isEmpty then Except.ok (0, st)
  else
    match runTx st st (batchOps parse st.lastIndexedId msgs) failAt 0 with
    | Except.error visible => Except.error visible
    | Except.ok newSt => Except.ok (msgs.length, newSt)

/-- `indexNewMessages` without failure injection (the normal run). -/
def indexNewMessages (parse : List Nat → Option PlistTop)
    (src : List SourceRow) (batchSize : Nat) (st : IndexStore) :
    Nat × IndexStore :=
  match indexNewMessagesTx parse src batchSize st none with
  | Except.ok r => r
  | Except.error _ => (0, st)

/-- The `while (true)` loop of `buildIndex`, with explicit fuel: call
`indexNewMessages(5000)` until a call indexes fewer than 5000 rows,
accumulating the total. -/
def buildIndexGo (parse : List Nat → Option PlistTop) (src : List SourceRow) :
    Nat → IndexStore → Nat → Nat × IndexStore
  | 0, st, total => (total, st)
  | fuel + 1, st, total =>
    let r := indexNewMessages parse src 5000 st
    if r.1 < 5000 then (total + r.1, r.2)
    else buildIndexGo parse src fuel r.2 (total + r.1)

/-- `buildIndex()` from `server/services/searchIndex.js`: repeated 5000-row
batches until caught up.  `src.length + 1` rounds of fuel always suffice
(each non-final round consumes 5000 source rows). -/
def buildIndex (parse : List Nat → Option PlistTop) (src : List SourceRow)
    (st : IndexStore) : Nat × IndexStore :=
  buildIndexGo parse src (src.length + 1) st 0

/-- SQLite ASCII case folding used by `LIKE`. -/
def asciiLower (c : Char) : Char :=
  if 'A' ≤ c ∧ c ≤ 'Z' then Char.ofNat (c.toNat + 0x20) else c

/-- One step of SQLite `LIKE` matching, structurally recursive on explicit
fuel (each step shortens the pattern or the text, so
`pattern length + text length + 1` fuel always suffices). -/
def likeMatchGo : Nat → List Char → List Char → Bool
  | 0, _, _ => false
  | _ + 1, [], t => t.isEmpty
  | fuel + 1, p :: ps, t =>
    if p = '%' then
      match t with
      | [] => likeMatchGo fuel ps []
      | c :: ts => likeMatchGo fuel ps (c :: ts) || likeMatchGo fuel (p :: ps) ts
    else if p = '_' then
      match t with
      | [] => false
      | _ :: ts => likeMatchGo fuel ps ts
    else
      match t with
      | [] => false
      | c :: ts => (asciiLower p == asciiLower c) && likeMatchGo fuel ps ts

/-- SQLite `LIKE` pattern matching (default, no ESCAPE): `%` matches any
sequence, `_` any single character, and literal characters compare after
ASCII case folding. -/
def likeMatch (p t : List Char) : Bool :=
  likeMatchGo (p.length + t.length + 1) p t

/-- The pattern `` `%${query}%` `` of the `searchIndex` SQL. -/
def likePattern (q : String) : List Char := '%' :: (q.data ++ ['%'])

/-- Descending order on `date` (`ORDER BY date DESC`). -/
def geByDate (a b : Nat × IndexEntry) : Bool := b.2.date ≤ a.2.date

/-- `searchIndex(query, {limit})` from `server/services/searchIndex.js`:
`SELECT ... FROM message_text WHERE text LIKE '%' || query || '%'
ORDER BY date DESC LIMIT limit`. -/
def searchIndexQuery (st : IndexStore) (query : String) (limit : Nat) :
    List (Nat × IndexEntry) :=
  (sortLe geByDate
    (st.entries.filter (fun e => likeMatch (likePattern query) e.2.text.data))).take
    limit

/-- `MAX_SEARCH_SCAN_LIMIT` from `server/config.js`. -/
def MAX_SEARCH_SCAN_LIMIT : Nat := 10000

/-- `MAC_EPOCH_MS` from `server/config.js`. -/
def MAC_EPOCH_MS : Int := 978307200000

/-- `convertMacTime(macTime)` from `server/helpers/time.js`:
`Math.floor(macTime / 1000000) + MAC_EPOCH_MS`, null only for null. -/
def convertMacTime : Option Int → Option Int
  | none => none
  | some t => some (Int.fdiv t 1000000 + MAC_EPOCH_MS)

/-- The external collaborators the `GET /search` route consults: the contact
group map (`getContactGroupMap().get(id)?.identifiers`), the
`chat_handle_join` lookup from a handle identifier to its chat ids, the
single-contact lookup per chat used for enrichment, and `getDisplayName`. -/
structure RouteEnv where
  groupIdentifiers : String → Option (List String)
  chatIdsOf : String → List Nat
  contactOf : Nat → Option String
  displayName : String → String

/-- The `allowedChatIds` set built by the route for a non-empty contact
filter: for each requested contact id with a known group, the chat ids of all
of the group's identifiers. -/
def allowedChatIds (env : RouteEnv) (contactIds : List String) : List Nat :=
  contactIds.foldl
    (fun acc cid =>
      match env.groupIdentifiers cid with
      | some idents => acc ++ idents.foldl (fun a i => a ++ env.chatIdsOf i) []
      | none => acc)
    []

/-- One enriched result object of the `GET /search` response. -/
structure SearchResultRow where
  message_id : Nat
  text : String
  conversation_id : Nat
  contact_identifier : String
  date : Option Int
  display_name : String
deriving DecidableEq

/-- The `GET /search` JSON response shape. -/
structure SearchResponse where
  results : List SearchResultRow
  page : Nat
  limit : Nat
  total : Nat
deriving DecidableEq

/-- The per-row enrichment of the route (contact lookup falling back to
`'Unknown'`, `convertMacTime`, `getDisplayName`). -/
def enrichRow (env : RouteEnv) (row : Nat × IndexEntry) : SearchResultRow :=
  let ci := (env.contactOf row.2.chat_id).getD "Unknown"
  ⟨row.1, row.2.text, row.2.chat_id, ci, convertMacTime (some row.2.date),
    env.displayName ci⟩

/-- The index matches the route scans: `searchIndex(query,
{limit: MAX_SEARCH_SCAN_LIMIT, ...})`. -/
def searchCandidates (st : IndexStore) (q : String) : List (Nat × IndexEntry) :=
  searchIndexQuery st q MAX_SEARCH_SCAN_LIMIT

/-- `filteredMatches` of the route: the candidates, filtered by chat id when
a contact filter was supplied and resolved to a non-empty chat id set. -/
def searchFiltered (env : RouteEnv) (st : IndexStore) (q : String)
    (contactIds : List String) : List (Nat × IndexEntry) :=
  let ms := searchCandidates st q
  if contactIds ≠ [] ∧ allowedChatIds env contactIds ≠ [] then
    ms.filter (fun r => (allowedChatIds env contactIds).contains r.2.chat_id)
  else ms

/-- The `GET /search` route handler of `server/routes/search.js` after
request parsing (`q`, `page`, `limit`, `contacts`): blank-query fast path,
index scan, contact filtering, pagination
(`slice((page-1)*limit, (page-1)*limit + limit)`), enrichment. -/
def searchRoute (env : RouteEnv) (st : IndexStore) (q : String)
    (page limit : Nat) (contactIds : List String) : SearchResponse :=
  if jsTrim q = "" then ⟨[], page, limit, 0⟩
  else
    let filteredMatches := searchFiltered env st q contactIds
    let offset := (page - 1) * limit
    ⟨((filteredMatches.drop offset).take limit).map (enrichRow env), page, limit,
      filteredMatches.length⟩

/-- The rows of the `message_text` table holding a given `message_id`
("the Indexed Entries with that identifier"). -/
def entriesFor (l : List (Nat × IndexEntry)) (k : Nat) : List (Nat × IndexEntry) :=
  l.filter (fun q => q.1 == k)

/-- The `message_id` column of the `message_text` table is a primary key:
no duplicate keys. -/
def keysNodup (l : List (Nat × IndexEntry)) : Prop :=
  (l.map Prod.fst).Nodup

/-- Source-store identifier invariant (§3): identifiers are unique. -/
def nodupIds (src : List SourceRow) : Prop :=
  (src.map SourceRow.message_id).Nodup

/-- The entry rows a fully indexed store holds for one source row: exactly
one row with the resolved trimmed text when the row resolves to non-blank
text, no row otherwise. -/
def expectedEntries (parse : List Nat → Option PlistTop) (r : SourceRow) :
    List (Nat × IndexEntry) :=
  match resolveIndexText parse r with
  | some t => [(r.message_id, ⟨t, r.date, r.chat_id⟩)]
  | none => []

/-- Index-store consistency invariant (§3 Index Cursor): keys are unique,
no entry lies beyond the cursor, and every source row at or below the cursor
is represented exactly by `expectedEntries`. -/
def StoreInv (parse : List Nat → Option PlistTop) (src : List SourceRow)
    (st : IndexStore) : Prop :=
  keysNodup st.entries ∧
  (∀ q ∈ st.entries, q.1 ≤ st.lastIndexedId) ∧
  (∀ r ∈ src, r.message_id ≤ st.lastIndexedId →
    entriesFor st.entries r.message_id = expectedEntries parse r)

/-- The source rows not yet covered by the cursor. -/
def pendingRows (src : List SourceRow) (cursor : Nat) : List SourceRow :=
  src.filter (fun r => cursor < r.message_id)

/-- A sequence of `indexNewMessages` calls, each against its own source
snapshot and batch size. -/
def runCalls (parse : List Nat → Option PlistTop)
    (calls : List (List SourceRow × Nat)) (st : IndexStore) : IndexStore :=
  calls.foldl (fun s c => (indexNewMessages parse c.1 c.2 s).2) st

/-- The storage normalization `indexNewMessages` applies to a resolved text
before writing it: keep the trimmed text iff it is non-blank. -/
def storedText : Option String → Option String
  | some s => if jsTrim s ≠ "" then some (jsTrim s) else none
  | none => none

/-- A string's characters after SQLite ASCII case folding. -/
def lowerChars (s : String) : List Char := s.data.map asciiLower

/-- `q` appears in `t` as a substring under the ASCII-case-insensitive rule
(the one SQLite `LIKE` applies). -/
def substrCI (q t : String) : Prop := lowerChars q <:+: lowerChars t

/-- A query without the SQL `LIKE` wildcard characters. -/
def noWildcard (q : String) : Prop := ∀ c ∈ q.data, c ≠ '%' ∧ c ≠ '_'

/-- A well-formed fallback-path buffer: the `NSString` marker, the `0x2b`
length-prefix marker, a length encoding, the payload, the `0x86` end marker,
and arbitrary trailing bytes. -/
def mkFallbackBuf (enc payload suffix : List Nat) : List Nat :=
  nsStringMarker ++ 0x2b :: (enc ++ (payload ++ 0x86 :: suffix))

/-- The string an all-ASCII byte list decodes to. -/
def asciiStr (l : List Nat) : String := ⟨l.map Char.ofNat⟩

/-- The variable-width length encodings of the fallback extractor, per the
spec table: a single byte below `0x80` is the length itself; `0x81`, `0x82`,
`0x83` announce 2, 3 and 4 little-endian length bytes. -/
def lenEncoding (enc : List Nat) (msgLen : Nat) : Prop :=
  match enc with
  | [l] => l < 0x80 ∧ msgLen = l
  | [b, l0, l1] => b = 0x81 ∧ msgLen = l0 + 0x100 * l1
  | [b, l0, l1, l2] => b = 0x82 ∧ msgLen = l0 + 0x100 * l1 + 0x10000 * l2
  | [b, l0, l1, l2, l3] =>
    b = 0x83 ∧ msgLen = l0 + 0x100 * l1 + 0x10000 * l2 + 0x1000000 * l3
  | _ => False

/-- Concrete fixtures used by witnesses and counterexamples. -/
def helloPayload : List Nat := [0x48, 0x65, 0x6c, 0x6c, 0x6f]

/-- The spec's fallback-path buffer: marker, length-prefix marker, length
byte 5, `"Hello"`, end marker. -/
def helloBuf : List Nat := mkFallbackBuf [0x05] helloPayload []

/-- A fallback-path buffer whose length byte is zero, followed by `"Hi"` and
the end marker. -/
def zeroLenBuf : List Nat := mkFallbackBuf [0x00] [0x48, 0x69] []

/-- A source row with a one-character `text` column and an unparseable
blob. -/
def rowSingleChar : SourceRow := ⟨1, some "a", some [0x00], 0, 1⟩

/-- A two-row source store with plain text. -/
def srcTwo : List SourceRow := [⟨1, some "hi", none, 0, 1⟩, ⟨2, some "yo", none, 0, 1⟩]

/-- A three-row source store: plain text, no text, blank text. -/
def srcThree : List SourceRow :=
  [⟨1, some "hi there", none, 5, 7⟩, ⟨2, none, none, 6, 7⟩, ⟨3, some "", none, 7, 8⟩]

/-- A route environment in which no requested contact id is known. -/
def envUnknown : RouteEnv := ⟨fun _ => none, fun _ => [], fun _ => none, fun s => s⟩

/-- A route environment with one contact group `"A"` whose identifier
`"a1"` belongs to chat 1. -/
def envGroupA : RouteEnv :=
  ⟨fun c => if c = "A" then some ["a1"] else none,
   fun i => if i = "a1" then [1] else [], fun _ => some "a1", fun s => s⟩

/-- An index store with one entry of text `"x"` in chat 1. -/
def stX : IndexStore := ⟨[(1, ⟨"x", 0, 1⟩)], 1⟩

/-- An index store with matching entries across chats 1, 2, 3. -/
def stABC : IndexStore :=
  ⟨[(1, ⟨"hit a", 10, 1⟩), (2, ⟨"hit b", 20, 2⟩), (3, ⟨"hit c", 30, 3⟩)], 3⟩

/-! ## Helper lemmas: sorting -/

/-- `insertLe` permutes consing. -/
theorem perm_insertLe (le : α → α → Bool) (a : α) (l : List α) :
    (insertLe le a l).Perm (a :: l) := by
  induction l with
  | nil => simp [insertLe]
  | cons b l ih =>
    by_cases h : le a b
    · simp [insertLe, h]
    · simp only [insertLe, h, Bool.false_eq_true, if_false]
      exact (ih.cons b).trans (List.Perm.swap a b l)

/-- `sortLe` is a permutation. -/
theorem perm_sortLe (le : α → α → Bool) (l : List α) : (sortLe le l).Perm l := by
  induction l with
  | nil => simp [sortLe]
  | cons a l ih => exact (perm_insertLe le a (sortLe le l)).trans (ih.cons a)

theorem mem_sortLe {le : α → α → Bool} {l : List α} {x : α} :
    x ∈ sortLe le l ↔ x ∈ l :=
  (perm_sortLe le l).mem_iff

theorem length_sortLe (le : α → α → Bool) (l : List α) :
    (sortLe le l).length = l.length :=
  (perm_sortLe le l).length_eq

theorem pairwise_insertLe {le : α → α → Bool}
    (htot : ∀ x y, le x y = true ∨ le y x = true)
    (htrans : ∀ x y z, le x y = true → le y z = true → le x z = true)
    {a : α} {l : List α} (hl : l.Pairwise fun x y => le x y = true) :
    (insertLe le a l).Pairwise fun x y => le x y = true := by
  induction l with
  | nil => simp [insertLe]
  | cons b l ih =>
    rcases List.pairwise_cons.mp hl with ⟨hb, hl'⟩
    by_cases h : le a b = true
    · simp only [insertLe, h, if_true]
      refine List.pairwise_cons.mpr ⟨?_, hl⟩
      intro y hy
      rcases List.mem_cons.mp hy with rfl | hy'
      · exact h
      · exact htrans a b y h (hb y hy')
    · simp only [insertLe, h, Bool.false_eq_true, if_false]
      refine List.pairwise_cons.mpr ⟨?_, ih hl'⟩
      intro y hy
      rcases List.mem_cons.mp ((perm_insertLe le a l).mem_iff.mp hy) with rfl | hy'
      · rcases htot y b with hc | hc
        · exact absurd hc h
        · exact hc
      · exact hb y hy'

/-- `sortLe` sorts, for a total transitive boolean relation. -/
theorem pairwise_sortLe {le : α → α → Bool}
    (htot : ∀ x y, le x y = true ∨ le y x = true)
    (htrans : ∀ x y z, le x y = true → le y z = true → le x z = true)
    (l : List α) : (sortLe le l).Pairwise fun x y => le x y = true := by
  induction l with
  | nil => simp [sortLe]
  | cons a l ih => exact pairwise_insertLe htot htrans ih

/-! ## Helper lemmas: the running maximum -/

theorem le_batchMaxId (c : Nat) (msgs : List SourceRow) :
    c ≤ batchMaxId c msgs := by
  induction msgs generalizing c with
  | nil => simp [batchMaxId]
  | cons r l ih =>
    simp only [batchMaxId, List.foldl_cons] at *
    exact le_trans (Nat.le_max_left c r.message_id) (ih (max c r.message_id))

theorem mem_le_batchMaxId {r : SourceRow} {msgs : List SourceRow} (c : Nat)
    (h : r ∈ msgs) : r.message_id ≤ batchMaxId c msgs := by
  induction msgs generalizing c with
  | nil => cases h
  | cons s l ih =>
    simp only [batchMaxId, List.foldl_cons] at *
    rcases List.mem_cons.mp h with rfl | h'
    · exact le_trans (Nat.le_max_right c r.message_id) (le_batchMaxId _ l)
    · exact ih (max c s.message_id) h'

theorem batchMaxId_lt {x c : Nat} {msgs : List SourceRow} (hc : c < x)
    (h : ∀ r ∈ msgs, r.message_id < x) : batchMaxId c msgs < x := by
  induction msgs generalizing c with
  | nil => simpa [batchMaxId] using hc
  | cons s l ih =>
    simp only [batchMaxId, List.foldl_cons] at *
    exact ih (max_lt hc (h s (List.mem_cons_self s l)))
      fun r hr => h r (List.mem_cons_of_mem s hr)

theorem batchMaxId_mem_or_init (c : Nat) (msgs : List SourceRow) :
    batchMaxId c msgs = c ∨ ∃ r ∈ msgs, batchMaxId c msgs = r.message_id := by
  induction msgs generalizing c with
  | nil => exact Or.inl rfl
  | cons s l ih =>
    simp only [batchMaxId, List.foldl_cons] at *
    rcases ih (max c s.message_id) with h | ⟨r, hr, hr'⟩
    · rcases max_choice c s.message_id with hm | hm
      · exact Or.inl (h.trans hm)
      · exact Or.inr ⟨s, List.mem_cons_self s l, h.trans hm⟩
    · exact Or.inr ⟨r, List.mem_cons_of_mem s hr, hr'⟩

/-! ## Helper lemmas: the entry table -/

theorem mem_upsertEntry {id : Nat} {e : IndexEntry} {l : List (Nat × IndexEntry)}
    {q : Nat × IndexEntry} (h : q ∈ upsertEntry id e l) : q = (id, e) ∨ q ∈ l := by
  induction l with
  | nil => simpa [upsertEntry] using h
  | cons p l ih =>
    obtain ⟨k, v⟩ := p
    by_cases hk : k = id
    · simp only [upsertEntry, hk, if_true] at h
      rcases List.mem_cons.mp h with rfl | h'
      · exact Or.inl rfl
      · exact Or.inr (List.mem_cons.mpr (Or.inr h'))
    · simp only [upsertEntry, hk, if_false] at h
      rcases List.mem_cons.mp h with rfl | h'
      · exact Or.inr (List.mem_cons.mpr (Or.inl rfl))
      · rcases ih h' with h'' | h''
        · exact Or.inl h''
        · exact Or.inr (List.mem_cons.mpr (Or.inr h''))

theorem upsertEntry_cons (id : Nat) (e : IndexEntry) (k : Nat) (v : IndexEntry)
    (l : List (Nat × IndexEntry)) :
    upsertEntry id e ((k, v) :: l) =
      if k = id then (id, e) :: l else (k, v) :: upsertEntry id e l := rfl

theorem entriesFor_cons (k' : Nat) (v : IndexEntry) (l : List (Nat × IndexEntry))
    (k : Nat) :
    entriesFor ((k', v) :: l) k =
      if k' == k then (k', v) :: entriesFor l k else entriesFor l k := by
  simp [entriesFor, List.filter_cons]

theorem entriesFor_eq_nil {l : List (Nat × IndexEntry)} {k : Nat}
    (h : k ∉ l.map Prod.fst) : entriesFor l k = [] := by
  induction l with
  | nil => simp [entriesFor]
  | cons p l ih =>
    obtain ⟨k', v⟩ := p
    simp only [List.map_cons, List.mem_cons, not_or] at h
    have hb : (k' == k) = false := beq_eq_false_iff_ne.mpr (Ne.symm h.1)
    rw [entriesFor_cons]
    simp only [hb, Bool.false_eq_true, if_false]
    exact ih h.2

theorem entriesFor_upsert_ne {id k : Nat} (hne : id ≠ k) (e : IndexEntry)
    (l : List (Nat × IndexEntry)) :
    entriesFor (upsertEntry id e l) k = entriesFor l k := by
  have hb : (id == k) = false := by simpa using hne
  induction l with
  | nil =>
    show entriesFor [(id, e)] k = entriesFor [] k
    rw [entriesFor_cons]
    simp only [hb, Bool.false_eq_true, if_false]
  | cons p l ih =>
    obtain ⟨k', v⟩ := p
    rw [upsertEntry_cons]
    by_cases hk : k' = id
    · rw [if_pos hk, entriesFor_cons, entriesFor_cons, hk]
      simp only [hb, Bool.false_eq_true, if_false]
    · rw [if_neg hk, entriesFor_cons, entriesFor_cons, ih]

theorem keysNodup_upsert {id : Nat} {e : IndexEntry} {l : List (Nat × IndexEntry)}
    (h : keysNodup l) : keysNodup (upsertEntry id e l) := by
  induction l with
  | nil => simp [upsertEntry, keysNodup]
  | cons p l ih =>
    obtain ⟨k, v⟩ := p
    have hk : k ∉ l.map Prod.fst := by
      have := (List.nodup_cons.mp h).1
      simpa using this
    have hl : keysNodup l := (List.nodup_cons.mp h).2
    rw [upsertEntry_cons]
    by_cases hkid : k = id
    · rw [if_pos hkid]
      subst hkid
      exact h
    · rw [if_neg hkid]
      show (List.map Prod.fst ((k, v) :: upsertEntry id e l)).Nodup
      rw [List.map_cons]
      refine List.nodup_cons.mpr ⟨?_, ih hl⟩
      intro hmem
      rcases List.mem_map.mp hmem with ⟨q, hq, hq'⟩
      rcases mem_upsertEntry hq with rfl | hq''
      · exact hkid hq'.symm
      · exact hk (List.mem_map.mpr ⟨q, hq'', hq'⟩)

theorem entriesFor_upsert_self {id : Nat} {e : IndexEntry}
    {l : List (Nat × IndexEntry)} (h : keysNodup l) :
    entriesFor (upsertEntry id e l) id = [(id, e)] := by
  induction l with
  | nil =>
    show entriesFor [(id, e)] id = [(id, e)]
    rw [entriesFor_cons]
    simp [entriesFor]
  | cons p l ih =>
    obtain ⟨k, v⟩ := p
    have hk : k ∉ l.map Prod.fst := by
      have := (List.nodup_cons.mp h).1
      simpa using this
    have hl : keysNodup l := (List.nodup_cons.mp h).2
    rw [upsertEntry_cons]
    by_cases hkid : k = id
    · rw [if_pos hkid, entriesFor_cons]
      subst hkid
      simp only [beq_self_eq_true, if_true]
      rw [entriesFor_eq_nil hk]
    · have hb : (k == id) = false := by simpa using hkid
      rw [if_neg hkid, entriesFor_cons]
      simp only [hb, Bool.false_eq_true, if_false]
      exact ih hl

/-! ## Helper lemmas: batch selection -/

theorem leById_total : ∀ x y : SourceRow, leById x y = true ∨ leById y x = true := by
  intro x y
  simp only [leById, decide_eq_true_eq]
  exact Nat.le_total x.message_id y.message_id

theorem leById_trans : ∀ x y z : SourceRow,
    leById x y = true → leById y z = true → leById x z = true := by
  intro x y z h1 h2
  simp only [leById, decide_eq_true_eq] at *
  omega

theorem mem_selectBatch {src : List SourceRow} {lastId bs : Nat} {r : SourceRow}
    (h : r ∈ selectBatch src lastId bs) : r ∈ src ∧ lastId < r.message_id := by
  unfold selectBatch at h
  have h2 := mem_sortLe.mp (List.mem_of_mem_take h)
  have h3 := List.mem_filter.mp h2
  exact ⟨h3.1, by simpa using h3.2⟩

theorem length_selectBatch (src : List SourceRow) (lastId bs : Nat) :
    (selectBatch src lastId bs).length = min bs (pendingRows src lastId).length := by
  unfold selectBatch pendingRows
  rw [List.length_take, length_sortLe]

theorem selectBatch_eq_sort_of_le {src : List SourceRow} {lastId bs : Nat}
    (h : (pendingRows src lastId).length ≤ bs) :
    selectBatch src lastId bs = sortLe leById (pendingRows src lastId) := by
  unfold selectBatch pendingRows at *
  apply List.take_of_length_le
  rw [length_sortLe]
  exact h

theorem pending_mem_selectBatch {src : List SourceRow} {lastId bs : Nat}
    {r : SourceRow} (h : (pendingRows src lastId).length ≤ bs) (hr : r ∈ src)
    (hgt : lastId < r.message_id) : r ∈ selectBatch src lastId bs := by
  rw [selectBatch_eq_sort_of_le h]
  exact mem_sortLe.mpr (List.mem_filter.mpr ⟨hr, by simpa using hgt⟩)

theorem dropped_lt_of_not_selected {src : List SourceRow} {lastId bs : Nat}
    {r : SourceRow} (hids : nodupIds src) (hr : r ∈ src)
    (hgt : lastId < r.message_id) (hnot : r ∉ selectBatch src lastId bs) :
    ∀ s ∈ selectBatch src lastId bs, s.message_id < r.message_id := by
  intro s hs
  have hpair : (sortLe leById (pendingRows src lastId)).Pairwise
      (fun x y => leById x y = true) :=
    pairwise_sortLe leById_total leById_trans _
  have hrs : r ∈ sortLe leById (pendingRows src lastId) :=
    mem_sortLe.mpr (List.mem_filter.mpr ⟨hr, by simpa [pendingRows] using hgt⟩)
  have hsplit := (List.take_append_drop bs (sortLe leById (pendingRows src lastId)))
  have hrdrop : r ∈ (sortLe leById (pendingRows src lastId)).drop bs := by
    rcases List.mem_append.mp (by rw [hsplit]; exact hrs) with h | h
    · exact absurd h hnot
    · exact h
  have hpair2 : ((sortLe leById (pendingRows src lastId)).take bs ++
      (sortLe leById (pendingRows src lastId)).drop bs).Pairwise
      (fun x y => leById x y = true) := by rw [hsplit]; exact hpair
  have hle : leById s r = true :=
    (List.pairwise_append.mp hpair2).2.2 s hs r hrdrop
  have hsmem : s ∈ src := (mem_selectBatch hs).1
  have hne : s.message_id ≠ r.message_id := by
    intro heq
    exact hnot (List.inj_on_of_nodup_map hids hsmem hr heq ▸ hs)
  simp only [leById, decide_eq_true_eq] at hle
  omega

/-! ## Helper lemmas: the batch transaction -/

theorem runTx_error {committed pending visible : IndexStore} {ops : List WriteOp}
    {failAt : Option Nat} {step : Nat}
    (h : runTx committed pending ops failAt step = Except.error visible) :
    visible = committed := by
  induction ops generalizing pending step with
  | nil => simp [runTx] at h
  | cons op rest ih =>
    simp only [runTx] at h
    by_cases hf : failAt = some step
    · rw [if_pos hf] at h
      exact (Except.error.inj h).symm
    · rw [if_neg hf] at h
      exact ih h

theorem runTx_ok {committed pending st' : IndexStore} {ops : List WriteOp}
    {failAt : Option Nat} {step : Nat}
    (h : runTx committed pending ops failAt step = Except.ok st') :
    st' = ops.foldl applyOp pending := by
  induction ops generalizing pending step with
  | nil =>
    simp only [runTx] at h
    simpa [List.foldl_nil] using (Except.ok.inj h).symm
  | cons op rest ih =>
    simp only [runTx] at h
    by_cases hf : failAt = some step
    · rw [if_pos hf] at h
      cases h
    · rw [if_neg hf] at h
      rw [List.foldl_cons]
      exact ih h

theorem runTx_none (committed pending : IndexStore) (ops : List WriteOp)
    (step : Nat) :
    runTx committed pending ops none step = Except.ok (ops.foldl applyOp pending) := by
  induction ops generalizing pending step with
  | nil => simp [runTx]
  | cons op rest ih => simp [runTx, ih]

/-- The normal run of `indexNewMessages`, characterized. -/
theorem indexNewMessages_eq (parse : List Nat → Option PlistTop)
    (src : List SourceRow) (bs : Nat) (st : IndexStore) :
    indexNewMessages parse src bs st =
      if (selectBatch src st.lastIndexedId bs).isEmpty then (0, st)
      else ((selectBatch src st.lastIndexedId bs).length,
        (batchOps parse st.lastIndexedId
          (selectBatch src st.lastIndexedId bs)).foldl applyOp st) := by
  unfold indexNewMessages indexNewMessagesTx
  by_cases h : (selectBatch src st.lastIndexedId bs).isEmpty
  · simp [h]
  · simp [h, runTx_none]

/-- Splitting the batch writes: the entry upserts, then the cursor update. -/
theorem foldl_batchOps (parse : List Nat → Option PlistTop) (c : Nat)
    (msgs : List SourceRow) (st : IndexStore) :
    (batchOps parse c msgs).foldl applyOp st =
      { (entryOps parse msgs).foldl applyOp st with
        lastIndexedId := batchMaxId c msgs } := by
  unfold batchOps
  rw [List.foldl_append]
  rfl

/-! ## Helper lemmas: the entry writes of a batch -/

theorem entryOps_cons (parse : List Nat → Option PlistTop) (r : SourceRow)
    (msgs : List SourceRow) :
    entryOps parse (r :: msgs) =
      match resolveIndexText parse r with
      | some t => WriteOp.putEntry r.message_id ⟨t, r.date, r.chat_id⟩ ::
          entryOps parse msgs
      | none => entryOps parse msgs := by
  unfold entryOps
  rw [List.filterMap_cons]
  cases resolveIndexText parse r <;> simp

theorem entryOps_cursor (parse : List Nat → Option PlistTop)
    (msgs : List SourceRow) (st : IndexStore) :
    ((entryOps parse msgs).foldl applyOp st).lastIndexedId = st.lastIndexedId := by
  induction msgs generalizing st with
  | nil => rfl
  | cons r msgs ih =>
    rw [entryOps_cons]
    cases hres : resolveIndexText parse r
    · exact ih st
    · rw [List.foldl_cons]
      exact ih _

theorem entryOps_keysNodup (parse : List Nat → Option PlistTop)
    (msgs : List SourceRow) (st : IndexStore) (h : keysNodup st.entries) :
    keysNodup ((entryOps parse msgs).foldl applyOp st).entries := by
  induction msgs generalizing st with
  | nil => exact h
  | cons r msgs ih =>
    rw [entryOps_cons]
    cases hres : resolveIndexText parse r
    · exact ih st h
    · rw [List.foldl_cons]
      exact ih _ (keysNodup_upsert h)

theorem entryOps_keys_le {parse : List Nat → Option PlistTop}
    {msgs : List SourceRow} {B : Nat} (st : IndexStore)
    (hst : ∀ q ∈ st.entries, q.1 ≤ B) (hmsgs : ∀ r ∈ msgs, r.message_id ≤ B) :
    ∀ q ∈ ((entryOps parse msgs).foldl applyOp st).entries, q.1 ≤ B := by
  induction msgs generalizing st with
  | nil => exact hst
  | cons r msgs ih =>
    rw [entryOps_cons]
    cases hres : resolveIndexText parse r
    · exact ih st hst fun x hx => hmsgs x (List.mem_cons_of_mem r hx)
    · rw [List.foldl_cons]
      refine ih _ ?_ fun x hx => hmsgs x (List.mem_cons_of_mem r hx)
      intro q hq
      rcases mem_upsertEntry hq with rfl | hq'
      · exact hmsgs r (List.mem_cons_self r msgs)
      · exact hst q hq'

theorem entryOps_entries_untouched {parse : List Nat → Option PlistTop}
    {msgs : List SourceRow} {k : Nat} (st : IndexStore)
    (h : ∀ r ∈ msgs, r.message_id ≠ k) :
    entriesFor ((entryOps parse msgs).foldl applyOp st).entries k =
      entriesFor st.entries k := by
  induction msgs generalizing st with
  | nil => rfl
  | cons r msgs ih =>
    have hr : r.message_id ≠ k := h r (List.mem_cons_self r msgs)
    have htail : ∀ x ∈ msgs, x.message_id ≠ k :=
      fun x hx => h x (List.mem_cons_of_mem r hx)
    rw [entryOps_cons]
    cases hres : resolveIndexText parse r
    · exact ih st htail
    · rw [List.foldl_cons]
      rw [ih _ htail]
      exact entriesFor_upsert_ne hr _ _

theorem entryOps_entries_touched {parse : List Nat → Option PlistTop}
    {msgs : List SourceRow}
    (hnd : (msgs.map SourceRow.message_id).Nodup) {r : SourceRow} (hr : r ∈ msgs)
    (st : IndexStore) (hkn : keysNodup st.entries) :
    entriesFor ((entryOps parse msgs).foldl applyOp st).entries r.message_id =
      (match resolveIndexText parse r with
       | some t => [(r.message_id, ⟨t, r.date, r.chat_id⟩)]
       | none => entriesFor st.entries r.message_id) := by
  induction msgs generalizing st with
  | nil => cases hr
  | cons s msgs ih =>
    have hnd1 : s.message_id ∉ msgs.map SourceRow.message_id :=
      (List.nodup_cons.mp (by simpa using hnd)).1
    have hnd2 : (msgs.map SourceRow.message_id).Nodup :=
      (List.nodup_cons.mp (by simpa using hnd)).2
    rcases List.mem_cons.mp hr with rfl | hr'
    · have huntouched : ∀ x ∈ msgs, x.message_id ≠ r.message_id := by
        intro x hx heq
        exact hnd1 (heq ▸ List.mem_map.mpr ⟨x, hx, rfl⟩)
      rw [entryOps_cons]
      cases hres : resolveIndexText parse r
      · exact entryOps_entries_untouched st huntouched
      · rw [List.foldl_cons]
        rw [entryOps_entries_untouched _ huntouched]
        exact entriesFor_upsert_self hkn
    · have hne : s.message_id ≠ r.message_id := by
        intro heq
        exact hnd1 (heq ▸ List.mem_map.mpr ⟨r, hr', rfl⟩)
      rw [entryOps_cons]
      cases hres : resolveIndexText parse s
      · exact ih hnd2 hr' st hkn
      · rw [List.foldl_cons]
        rw [ih hnd2 hr' _ (keysNodup_upsert hkn)]
        cases resolveIndexText parse r
        · exact entriesFor_upsert_ne hne _ _
        · rfl

/-! ## Helper lemmas: the indexer invariant -/

theorem indexNewMessages_of_empty (parse : List Nat → Option PlistTop)
    (src : List SourceRow) (bs : Nat) (st : IndexStore)
    (h : (selectBatch src st.lastIndexedId bs).isEmpty = true) :
    indexNewMessages parse src bs st = (0, st) := by
  rw [indexNewMessages_eq, if_pos h]

theorem indexNewMessages_store (parse : List Nat → Option PlistTop)
    (src : List SourceRow) (bs : Nat) (st : IndexStore)
    (h : ¬(selectBatch src st.lastIndexedId bs).isEmpty = true) :
    (indexNewMessages parse src bs st).2 =
      { entries := ((entryOps parse
          (selectBatch src st.lastIndexedId bs)).foldl applyOp st).entries,
        lastIndexedId :=
          batchMaxId st.lastIndexedId (selectBatch src st.lastIndexedId bs) } := by
  rw [indexNewMessages_eq, if_neg h]
  show (batchOps parse st.lastIndexedId
    (selectBatch src st.lastIndexedId bs)).foldl applyOp st = _
  exact foldl_batchOps parse st.lastIndexedId _ st

theorem nodupIds_selectBatch {src : List SourceRow} {lastId bs : Nat}
    (hids : nodupIds src) :
    ((selectBatch src lastId bs).map SourceRow.message_id).Nodup := by
  have h1 : ((pendingRows src lastId).map SourceRow.message_id).Nodup :=
    ((List.filter_sublist src).map SourceRow.message_id).nodup hids
  have h2 : ((sortLe leById (pendingRows src lastId)).map SourceRow.message_id).Nodup :=
    (((perm_sortLe leById (pendingRows src lastId)).map
      SourceRow.message_id).nodup_iff).mpr h1
  exact ((List.take_sublist bs _).map SourceRow.message_id).nodup h2

theorem cursor_mono (parse : List Nat → Option PlistTop) (src : List SourceRow)
    (bs : Nat) (st : IndexStore) :
    st.lastIndexedId ≤ (indexNewMessages parse src bs st).2.lastIndexedId := by
  by_cases h : (selectBatch src st.lastIndexedId bs).isEmpty = true
  · rw [indexNewMessages_of_empty parse src bs st h]
  · rw [indexNewMessages_store parse src bs st h]
    exact le_batchMaxId _ _

theorem cursor_of_batch (parse : List Nat → Option PlistTop) (src : List SourceRow)
    (bs : Nat) (st : IndexStore)
    (h : ¬(selectBatch src st.lastIndexedId bs).isEmpty = true) :
    (indexNewMessages parse src bs st).2.lastIndexedId =
      batchMaxId st.lastIndexedId (selectBatch src st.lastIndexedId bs) := by
  rw [indexNewMessages_store parse src bs st h]

theorem count_indexNewMessages (parse : List Nat → Option PlistTop)
    (src : List SourceRow) (bs : Nat) (st : IndexStore) :
    (indexNewMessages parse src bs st).1 =
      (selectBatch src st.lastIndexedId bs).length := by
  rw [indexNewMessages_eq]
  by_cases h : (selectBatch src st.lastIndexedId bs).isEmpty = true
  · rw [if_pos h, List.isEmpty_iff.mp h]
    rfl
  · rw [if_neg h]

/-- One successful batch preserves the index-store invariant. -/
theorem storeInv_step (parse : List Nat → Option PlistTop) (src : List SourceRow)
    (bs : Nat) (st : IndexStore) (hids : nodupIds src)
    (hinv : StoreInv parse src st) :
    StoreInv parse src (indexNewMessages parse src bs st).2 := by
  by_cases hempty : (selectBatch src st.lastIndexedId bs).isEmpty = true
  · rw [indexNewMessages_of_empty parse src bs st hempty]
    exact hinv
  · rw [indexNewMessages_store parse src bs st hempty]
    obtain ⟨hkn, hkeys, hmain⟩ := hinv
    refine ⟨?_, ?_, ?_⟩
    · show keysNodup ((entryOps parse
        (selectBatch src st.lastIndexedId bs)).foldl applyOp st).entries
      exact entryOps_keysNodup parse _ st hkn
    · show ∀ q ∈ ((entryOps parse
        (selectBatch src st.lastIndexedId bs)).foldl applyOp st).entries,
        q.1 ≤ batchMaxId st.lastIndexedId (selectBatch src st.lastIndexedId bs)
      exact entryOps_keys_le st
        (fun q hq => le_trans (hkeys q hq) (le_batchMaxId _ _))
        (fun r hr => mem_le_batchMaxId _ hr)
    · intro r hr hrle
      replace hrle : r.message_id ≤
          batchMaxId st.lastIndexedId (selectBatch src st.lastIndexedId bs) := hrle
      show entriesFor ((entryOps parse
        (selectBatch src st.lastIndexedId bs)).foldl applyOp st).entries
        r.message_id = expectedEntries parse r
      by_cases hmem : r ∈ selectBatch src st.lastIndexedId bs
      · rw [entryOps_entries_touched (nodupIds_selectBatch hids) hmem st hkn]
        cases hres : resolveIndexText parse r
        · have hgr : st.lastIndexedId < r.message_id := (mem_selectBatch hmem).2
          have hnotin : r.message_id ∉ st.entries.map Prod.fst := by
            intro hin
            rcases List.mem_map.mp hin with ⟨q, hq, hq'⟩
            have := hkeys q hq
            omega
          rw [entriesFor_eq_nil hnotin]
          simp [expectedEntries, hres]
        · simp [expectedEntries, hres]
      · by_cases hle : r.message_id ≤ st.lastIndexedId
        · have huntouched : ∀ x ∈ selectBatch src st.lastIndexedId bs,
              x.message_id ≠ r.message_id := by
            intro x hx heq
            have := (mem_selectBatch hx).2
            omega
          rw [entryOps_entries_untouched st huntouched]
          exact hmain r hr hle
        · have hgt : st.lastIndexedId < r.message_id := by omega
          have hdrop := dropped_lt_of_not_selected hids hr hgt hmem
          have := batchMaxId_lt hgt hdrop
          omega

/-- A batch that returns fewer rows than its batch size catches up
completely: nothing is pending past the new cursor. -/
theorem pending_nil_of_short (parse : List Nat → Option PlistTop)
    (src : List SourceRow) (bs : Nat) (st : IndexStore)
    (hshort : (indexNewMessages parse src bs st).1 < bs) :
    pendingRows src (indexNewMessages parse src bs st).2.lastIndexedId = [] := by
  have hcount := count_indexNewMessages parse src bs st
  have hlen := length_selectBatch src st.lastIndexedId bs
  by_cases hempty : (selectBatch src st.lastIndexedId bs).isEmpty = true
  · have h0 : (selectBatch src st.lastIndexedId bs).length = 0 := by
      rw [List.isEmpty_iff.mp hempty]
      rfl
    have hplen : (pendingRows src st.lastIndexedId).length = 0 := by
      rw [h0] at hlen
      omega
    rw [indexNewMessages_of_empty parse src bs st hempty]
    exact List.length_eq_zero.mp hplen
  · have hplen : (pendingRows src st.lastIndexedId).length ≤ bs := by omega
    rw [cursor_of_batch parse src bs st hempty]
    unfold pendingRows
    rw [List.filter_eq_nil_iff]
    intro r hr
    simp only [decide_eq_true_eq, not_lt]
    by_cases hgt : st.lastIndexedId < r.message_id
    · exact mem_le_batchMaxId _ (pending_mem_selectBatch hplen hr hgt)
    · exact le_trans (by omega) (le_batchMaxId _ _)

theorem buildIndexGo_succ (parse : List Nat → Option PlistTop)
    (src : List SourceRow) (fuel : Nat) (st : IndexStore) (total : Nat) :
    buildIndexGo parse src (fuel + 1) st total =
      if (indexNewMessages parse src 5000 st).1 < 5000 then
        (total + (indexNewMessages parse src 5000 st).1,
          (indexNewMessages parse src 5000 st).2)
      else buildIndexGo parse src fuel (indexNewMessages parse src 5000 st).2
        (total + (indexNewMessages parse src 5000 st).1) := rfl

/-- `buildIndexGo` preserves the invariant. -/
theorem buildIndexGo_inv (parse : List Nat → Option PlistTop)
    (src : List SourceRow) (hids : nodupIds src) :
    ∀ fuel (st : IndexStore) (total : Nat), StoreInv parse src st →
      StoreInv parse src (buildIndexGo parse src fuel st total).2 := by
  intro fuel
  induction fuel with
  | zero => intro st total hinv; exact hinv
  | succ fuel ih =>
    intro st total hinv
    rw [buildIndexGo_succ]
    by_cases h : (indexNewMessages parse src 5000 st).1 < 5000
    · rw [if_pos h]
      exact storeInv_step parse src 5000 st hids hinv
    · rw [if_neg h]
      exact ih _ _ (storeInv_step parse src 5000 st hids hinv)

/-- With enough fuel, `buildIndexGo` terminates caught up: nothing is pending
past the final cursor. -/
theorem buildIndexGo_covers (parse : List Nat → Option PlistTop)
    (src : List SourceRow) :
    ∀ fuel (st : IndexStore) (total : Nat),
      (pendingRows src st.lastIndexedId).length < fuel →
      pendingRows src (buildIndexGo parse src fuel st total).2.lastIndexedId = [] := by
  intro fuel
  induction fuel with
  | zero => intro st total h; omega
  | succ fuel ih =>
    intro st total hfuel
    rw [buildIndexGo_succ]
    by_cases h : (indexNewMessages parse src 5000 st).1 < 5000
    · rw [if_pos h]
      exact pending_nil_of_short parse src 5000 st h
    · rw [if_neg h]
      apply ih
      have hcount := count_indexNewMessages parse src 5000 st
      have hlen := length_selectBatch src st.lastIndexedId 5000
      have hfull : (selectBatch src st.lastIndexedId 5000).length = 5000 := by omega
      have hnotempty : ¬(selectBatch src st.lastIndexedId 5000).isEmpty = true := by
        intro hc
        rw [List.isEmpty_iff.mp hc] at hfull
        simp at hfull
      obtain ⟨s, hs⟩ : ∃ s, s ∈ selectBatch src st.lastIndexedId 5000 := by
        rcases hsel : selectBatch src st.lastIndexedId 5000 with _ | ⟨s, rest⟩
        · rw [hsel] at hfull; simp at hfull
        · exact ⟨s, List.mem_cons_self s rest⟩
      rw [cursor_of_batch parse src 5000 st hnotempty]
      have himp : ∀ r : SourceRow,
          decide (batchMaxId st.lastIndexedId
            (selectBatch src st.lastIndexedId 5000) < r.message_id) = true →
          decide (st.lastIndexedId < r.message_id) = true := by
        intro r hd
        have hle : st.lastIndexedId ≤ batchMaxId st.lastIndexedId
          (selectBatch src st.lastIndexedId 5000) := le_batchMaxId _ _
        simp only [decide_eq_true_eq] at *
        omega
      have hfact : pendingRows src (batchMaxId st.lastIndexedId
          (selectBatch src st.lastIndexedId 5000)) =
          (pendingRows src st.lastIndexedId).filter
            (fun r => decide (batchMaxId st.lastIndexedId
              (selectBatch src st.lastIndexedId 5000) < r.message_id)) := by
        unfold pendingRows
        rw [List.filter_filter]
        congr 1
        funext r
        by_cases hc : decide (batchMaxId st.lastIndexedId
            (selectBatch src st.lastIndexedId 5000) < r.message_id) = true
        · rw [hc, himp r hc]
          rfl
        · simp only [Bool.not_eq_true] at hc
          rw [hc]
          simp
      have hstrict : (pendingRows src (batchMaxId st.lastIndexedId
          (selectBatch src st.lastIndexedId 5000))).length <
          (pendingRows src st.lastIndexedId).length := by
        rw [hfact, List.length_filter_lt_length_iff_exists]
        refine ⟨s, ?_, ?_⟩
        · have := mem_selectBatch hs
          exact List.mem_filter.mpr ⟨this.1, by simpa using this.2⟩
        · simp only [decide_eq_true_eq, not_lt]
          exact mem_le_batchMaxId _ hs
      omega

/-! ## Claims C1–C5: the incremental indexer -/

/-- C1 counterexample: the source row `{id: 1, text: "a", attributedBody:
<unparseable blob>}` has non-blank resolvable text `"a"` per the §4.2
resolver (`getMessageText`), yet after `buildIndex()` the resulting cursor is
1 and the Index Store holds **no** entry for id 1: the indexer consults the
extractor (which fails) because the text column trims to fewer than 2
characters, instead of using the §4.2 rule. -/
theorem C1_counterexample :
    getMessageText noPlist rowSingleChar = some "a" ∧
    jsTrim "a" ≠ "" ∧
    rowSingleChar.message_id = 1 ∧
    (buildIndex noPlist [rowSingleChar] emptyStore).2.lastIndexedId = 1 ∧
    entriesFor (buildIndex noPlist [rowSingleChar] emptyStore).2.entries 1 = [] := by
  refine ⟨by decide, by decide, rfl, by decide, by decide⟩

/-- **C1 (amended)**: completeness under catch-up.  After `buildIndex()`
starting from a consistent store (e.g. a fresh one) over a source store with
distinct identifiers, every source row with identifier ≤ the resulting
cursor is represented per the *code's* resolution rule (`resolveIndexText`,
which uses the plain-text column only when it trims to at least 2 UTF-16
units, not the §4.2 rule): exactly one entry with that identifier and the
matching trimmed text when the rule yields non-blank text, and no entry
otherwise. -/
theorem C1_completeness_after_buildIndex (parse : List Nat → Option PlistTop)
    (src : List SourceRow) (st0 : IndexStore) (hids : nodupIds src)
    (hinv : StoreInv parse src st0) :
    ∀ r ∈ src, r.message_id ≤ (buildIndex parse src st0).2.lastIndexedId →
      entriesFor (buildIndex parse src st0).2.entries r.message_id =
        expectedEntries parse r := by
  intro r hr hle
  exact (buildIndexGo_inv parse src hids (src.length + 1) st0 0 hinv).2.2 r hr hle

/-- C1 witness: the amended theorem applied to a concrete three-row source
store and a fresh index store. -/
theorem C1_witness :
    nodupIds srcThree ∧ StoreInv noPlist srcThree emptyStore ∧
    (⟨1, some "hi there", none, 5, 7⟩ : SourceRow) ∈ srcThree ∧
    (⟨1, some "hi there", none, 5, 7⟩ : SourceRow).message_id ≤
      (buildIndex noPlist srcThree emptyStore).2.lastIndexedId ∧
    entriesFor (buildIndex noPlist srcThree emptyStore).2.entries 1 =
      expectedEntries noPlist ⟨1, some "hi there", none, 5, 7⟩ := by
  refine ⟨by unfold nodupIds; decide, by unfold StoreInv keysNodup; decide,
    by decide, by decide, ?_⟩
  exact C1_completeness_after_buildIndex noPlist srcThree emptyStore
    (by unfold nodupIds; decide) (by unfold StoreInv keysNodup; decide)
    ⟨1, some "hi there", none, 5, 7⟩ (by decide) (by decide)

/-- **C2**: batch atomicity.  For every write-failure injection point: on
failure the error propagates and the visible store is exactly the pre-batch
store (cursor and entries unchanged); on success the outcome is exactly the
full no-failure batch, and the cursor is either its pre-batch value or the
batch maximum — never an intermediate value, with no proper subset of the
batch's entries visible. -/
theorem C2_batch_atomicity (parse : List Nat → Option PlistTop)
    (src : List SourceRow) (bs : Nat) (st : IndexStore) (failAt : Option Nat) :
    (∀ visible, indexNewMessagesTx parse src bs st failAt = Except.error visible →
      visible = st) ∧
    (∀ n st', indexNewMessagesTx parse src bs st failAt = Except.ok (n, st') →
      (n, st') = indexNewMessages parse src bs st ∧
      (st'.lastIndexedId = st.lastIndexedId ∨
        st'.lastIndexedId =
          batchMaxId st.lastIndexedId (selectBatch src st.lastIndexedId bs))) := by
  constructor
  · intro visible h
    unfold indexNewMessagesTx at h
    by_cases hempty : (selectBatch src st.lastIndexedId bs).isEmpty = true
    · rw [if_pos hempty] at h
      cases h
    · rw [if_neg hempty] at h
      cases hrun : runTx st st
          (batchOps parse st.lastIndexedId (selectBatch src st.lastIndexedId bs))
          failAt 0 with
      | error v =>
        rw [hrun] at h
        rw [← Except.error.inj h]
        exact runTx_error hrun
      | ok newSt =>
        rw [hrun] at h
        cases h
  · intro n st' h
    unfold indexNewMessagesTx at h
    by_cases hempty : (selectBatch src st.lastIndexedId bs).isEmpty = true
    · rw [if_pos hempty] at h
      have hpair := Except.ok.inj h
      rw [indexNewMessages_of_empty parse src bs st hempty, ← hpair]
      exact ⟨rfl, Or.inl (congrArg (fun p => p.2.lastIndexedId) hpair.symm ▸ rfl)⟩
    · rw [if_neg hempty] at h
      cases hrun : runTx st st
          (batchOps parse st.lastIndexedId (selectBatch src st.lastIndexedId bs))
          failAt 0 with
      | error v =>
        rw [hrun] at h
        cases h
      | ok newSt =>
        rw [hrun] at h
        have hpair := Except.ok.inj h
        have hnew : newSt =
            (batchOps parse st.lastIndexedId
              (selectBatch src st.lastIndexedId bs)).foldl applyOp st :=
          runTx_ok hrun
        have hst' : st' = newSt := (congrArg Prod.snd hpair).symm
        have hn : n = (selectBatch src st.lastIndexedId bs).length :=
          (congrArg Prod.fst hpair).symm
        constructor
        · rw [indexNewMessages_eq, if_neg hempty, hst', hn, hnew]
        · right
          rw [hst', hnew, foldl_batchOps]

/-- C2 witness: a failure injected at the first write of a non-empty batch
leaves the store untouched. -/
theorem C2_witness :
    indexNewMessagesTx noPlist srcTwo 5 emptyStore (some 0) =
      Except.error emptyStore ∧ emptyStore = emptyStore := by
  refine ⟨by rfl, ?_⟩
  exact (C2_batch_atomicity noPlist srcTwo 5 emptyStore (some 0)).1
    emptyStore (by rfl)

/-- **C3**: monotonic cursor.  A single `indexNewMessages` call never
decreases the persisted cursor; a successful non-empty batch sets it to the
maximum identifier seen (which is at least the previous cursor); and along
any sequence of calls, with any batch sizes and any source snapshots, the
cursor is non-decreasing. -/
theorem C3_monotonic_cursor (parse : List Nat → Option PlistTop) :
    (∀ (src : List SourceRow) (bs : Nat) (st : IndexStore),
      st.lastIndexedId ≤ (indexNewMessages parse src bs st).2.lastIndexedId) ∧
    (∀ (src : List SourceRow) (bs : Nat) (st : IndexStore),
      ¬(selectBatch src st.lastIndexedId bs).isEmpty = true →
      (indexNewMessages parse src bs st).2.lastIndexedId =
        batchMaxId st.lastIndexedId (selectBatch src st.lastIndexedId bs) ∧
      st.lastIndexedId ≤
        batchMaxId st.lastIndexedId (selectBatch src st.lastIndexedId bs)) ∧
    (∀ (calls : List (List SourceRow × Nat)) (st : IndexStore),
      st.lastIndexedId ≤ (runCalls parse calls st).lastIndexedId) := by
  refine ⟨cursor_mono parse, ?_, ?_⟩
  · intro src bs st h
    exact ⟨cursor_of_batch parse src bs st h, le_batchMaxId _ _⟩
  · intro calls
    induction calls with
    | nil => intro st; exact le_refl _
    | cons c calls ih =>
      intro st
      have h1 := cursor_mono parse c.1 c.2 st
      have h2 := ih (indexNewMessages parse c.1 c.2 st).2
      exact le_trans h1 h2

/-- C3 witness: the batch-maximum clause at a concrete non-empty batch. -/
theorem C3_witness :
    ¬(selectBatch srcTwo emptyStore.lastIndexedId 5).isEmpty = true ∧
    (indexNewMessages noPlist srcTwo 5 emptyStore).2.lastIndexedId =
      batchMaxId emptyStore.lastIndexedId
        (selectBatch srcTwo emptyStore.lastIndexedId 5) := by
  refine ⟨by decide, ?_⟩
  exact ((C3_monotonic_cursor noPlist).2.1 srcTwo 5 emptyStore (by decide)).1

theorem jsLength_le_foldl (l : List Char) (n : Nat) :
    n ≤ l.foldl (fun m c => m + (if 0x10000 ≤ c.toNat then 2 else 1)) n := by
  induction l generalizing n with
  | nil => exact le_refl n
  | cons c l ih =>
    rw [List.foldl_cons]
    exact le_trans (Nat.le_add_right n _) (ih _)

theorem jsLength_pos {s : String} (h : s ≠ "") : 0 < jsLength s := by
  obtain ⟨l⟩ := s
  cases l with
  | nil => exact absurd (by decide) h
  | cons c l =>
    unfold jsLength
    show 0 < (c :: l).foldl (fun m c => m + (if 0x10000 ≤ c.toNat then 2 else 1)) 0
    rw [List.foldl_cons]
    refine lt_of_lt_of_le ?_ (jsLength_le_foldl l _)
    split <;> omega

/-- C4 counterexample: on the row `{text: "a", attributedBody: <unparseable
blob>}` the indexer resolves no text (it discards the 1-character column,
consults the extractor, which fails) while the §4.2 resolver
(`getMessageText`) resolves `"a"` — non-equal even up to the final trim. -/
theorem C4_counterexample :
    resolveIndexText noPlist rowSingleChar = none ∧
    storedText (getMessageText noPlist rowSingleChar) = some "a" := by
  decide

/-- **C4 (amended)**: resolver equivalence holds except in the one corner the
code treats differently: whenever the plain-text column does **not** trim to
exactly one UTF-16 unit, or no blob is present, the text `indexNewMessages`
resolves and stores equals the §4.2 resolver `getMessageText` up to the
final trim-and-drop-blank normalization (`storedText`).  (The code consults
the extractor when the trimmed column has fewer than 2 units, so a
one-character text column with a blob present diverges, per the
counterexample.) -/
theorem C4_resolver_equivalence (parse : List Nat → Option PlistTop)
    (r : SourceRow)
    (h : jsLength (jsTrim (r.text.getD "")) ≠ 1 ∨ r.attributedBody = none) :
    resolveIndexText parse r = storedText (getMessageText parse r) := by
  cases htext : r.text with
  | none =>
    cases hblob : r.attributedBody with
    | none => simp [resolveIndexText, getMessageText, storedText, htext, hblob]
    | some blob => simp [resolveIndexText, getMessageText, storedText, htext, hblob]
  | some t =>
    cases hblob : r.attributedBody with
    | none =>
      by_cases htrim : jsTrim t = ""
      · simp [resolveIndexText, getMessageText, storedText, htext, hblob, htrim]
      · simp [resolveIndexText, getMessageText, storedText, htext, hblob, htrim]
    | some blob =>
      by_cases htrim : jsTrim t = ""
      · have hlen : jsLength "" < 2 := by decide
        simp [resolveIndexText, getMessageText, storedText, htext, hblob, htrim,
          hlen]
      · have ht0 : t ≠ "" := fun he => htrim (by rw [he]; rfl)
        have hlen1 : jsLength (jsTrim t) ≠ 1 := by
          rcases h with h1 | h2
          · rw [htext] at h1; simpa using h1
          · rw [hblob] at h2; cases h2
        have hlenpos : 0 < jsLength (jsTrim t) := jsLength_pos htrim
        have hlen2 : ¬(jsLength (jsTrim t) < 2) := by omega
        simp [resolveIndexText, getMessageText, storedText, htext, hblob, htrim,
          ht0, hlen2]

/-- C4 witness: the amended equivalence at a concrete two-character row. -/
theorem C4_witness :
    (jsLength (jsTrim (((⟨1, some "hi", none, 0, 1⟩ : SourceRow)).text.getD "")) ≠ 1 ∨
      (⟨1, some "hi", none, 0, 1⟩ : SourceRow).attributedBody = none) ∧
    resolveIndexText noPlist ⟨1, some "hi", none, 0, 1⟩ =
      storedText (getMessageText noPlist ⟨1, some "hi", none, 0, 1⟩) := by
  refine ⟨by decide, ?_⟩
  exact C4_resolver_equivalence noPlist ⟨1, some "hi", none, 0, 1⟩ (by decide)

/-- C5 counterexample: with two pending source rows and batch size 1, the
second back-to-back `indexNewMessages` call (no new source rows in between)
indexes 1 further row, not 0, and moves the cursor from 1 to 2. -/
theorem C5_counterexample :
    (indexNewMessages noPlist srcTwo 1
      (indexNewMessages noPlist srcTwo 1 emptyStore).2).1 = 1 ∧
    (indexNewMessages noPlist srcTwo 1 emptyStore).2.lastIndexedId = 1 ∧
    (indexNewMessages noPlist srcTwo 1
      (indexNewMessages noPlist srcTwo 1 emptyStore).2).2.lastIndexedId = 2 := by
  decide

/-- **C5 (amended)**: idempotence holds once caught up.  If an
`indexNewMessages` call returns fewer rows than its batch size (the "caught
up" signal the spec documents for callers), then a second call on the same
source store — any batch size — indexes 0 rows and returns the store
exactly unchanged: no entries written, cursor identical. -/
theorem C5_idempotence (parse : List Nat → Option PlistTop)
    (src : List SourceRow) (bs1 bs2 : Nat) (st : IndexStore)
    (hshort : (indexNewMessages parse src bs1 st).1 < bs1) :
    indexNewMessages parse src bs2 (indexNewMessages parse src bs1 st).2 =
      (0, (indexNewMessages parse src bs1 st).2) := by
  have hpend := pending_nil_of_short parse src bs1 st hshort
  have hsel : selectBatch src
      (indexNewMessages parse src bs1 st).2.lastIndexedId bs2 = [] := by
    unfold selectBatch
    unfold pendingRows at hpend
    rw [hpend]
    simp [sortLe]
  apply indexNewMessages_of_empty
  rw [hsel]
  rfl

/-- C5 witness: a caught-up first call on the concrete two-row store makes
the second call a no-op. -/
theorem C5_witness :
    (indexNewMessages noPlist srcTwo 5 emptyStore).1 < 5 ∧
    indexNewMessages noPlist srcTwo 5
      (indexNewMessages noPlist srcTwo 5 emptyStore).2 =
      (0, (indexNewMessages noPlist srcTwo 5 emptyStore).2) := by
  refine ⟨by decide, ?_⟩
  exact C5_idempotence noPlist srcTwo 5 5 emptyStore (by decide)

/-! ## Helper lemmas: byte scanning and text cleaning -/

theorem isPrefixOf_eq_true_iff (l1 l2 : List Nat) :
    l1.isPrefixOf l2 = true ↔ ∃ t, l1 ++ t = l2 := by
  induction l1 generalizing l2 with
  | nil => simp [List.isPrefixOf]
  | cons a l1 ih =>
    cases l2 with
    | nil => simp [List.isPrefixOf]
    | cons b l2 =>
      simp only [List.isPrefixOf, Bool.and_eq_true, beq_iff_eq]
      constructor
      · rintro ⟨rfl, h⟩
        rcases (ih l2).mp h with ⟨t, rfl⟩
        exact ⟨t, rfl⟩
      · rintro ⟨t, ht⟩
        rcases List.cons.inj ht with ⟨rfl, ht2⟩
        exact ⟨rfl, (ih l2).mpr ⟨t, ht2⟩⟩

theorem isPrefixOf_append_self (l r : List Nat) : l.isPrefixOf (l ++ r) = true :=
  (isPrefixOf_eq_true_iff l (l ++ r)).mpr ⟨r, rfl⟩

theorem findSeq_append_self (pat r : List Nat) : findSeq pat (pat ++ r) = some 0 := by
  cases pat with
  | nil =>
    cases r with
    | nil => rfl
    | cons d ds => simp [findSeq, List.isPrefixOf]
  | cons p ps =>
    show findSeq (p :: ps) (p :: (ps ++ r)) = some 0
    simp [findSeq, isPrefixOf_append_self (p :: ps) r]

theorem findSeq_eq_none {pat : List Nat} (hpat : pat ≠ []) {l : List Nat}
    (h : ∀ i, ¬∃ t, pat ++ t = l.drop i) : findSeq pat l = none := by
  induction l with
  | nil =>
    cases pat with
    | nil => exact absurd rfl hpat
    | cons p ps => rfl
  | cons d ds ih =>
    simp only [findSeq]
    have h0 : ¬pat.isPrefixOf (d :: ds) = true := by
      intro hc
      exact h 0 ((isPrefixOf_eq_true_iff _ _).mp hc)
    rw [if_neg h0, ih fun i => h (i + 1)]
    rfl

theorem findByte_append_of_ne {b : Nat} {l1 : List Nat} (l2 : List Nat)
    (h : ∀ d ∈ l1, d ≠ b) :
    findByte b (l1 ++ l2) = (findByte b l2).map (· + l1.length) := by
  induction l1 with
  | nil =>
    cases hf : findByte b l2 <;> simp [hf]
  | cons d l1 ih =>
    have hd : d ≠ b := h d (List.mem_cons_self d l1)
    simp only [List.cons_append, findByte, hd, if_false]
    rw [show l1.append l2 = l1 ++ l2 from rfl,
      ih fun x hx => h x (List.mem_cons_of_mem d hx)]
    cases hf : findByte b l2 <;> (simp [hf]; try omega)

theorem toNat_charOfNat {n : Nat} (h : n < 0xd800) : (Char.ofNat n).toNat = n := by
  unfold Char.ofNat
  split
  · rfl
  · rename_i hc
    exact absurd (Or.inl h) hc

theorem printable_char_facts {b : Nat} (h1 : 0x21 ≤ b) (h2 : b ≤ 0x7e) :
    junkChar (Char.ofNat b) = false ∧ jsWhitespace (Char.ofNat b) = false ∧
    (Char.ofNat b).toNat ≠ 0xfffc := by
  have htoNat : (Char.ofNat b).toNat = b := toNat_charOfNat (by omega)
  unfold junkChar jsWhitespace
  rw [htoNat]
  refine ⟨?_, ?_, ?_⟩
  · simp only [Bool.or_eq_false_iff, beq_eq_false_iff_ne, decide_eq_false_iff_not,
      not_le]
    omega
  · simp only [Bool.or_eq_false_iff, Bool.and_eq_false_iff, beq_eq_false_iff_ne,
      decide_eq_false_iff_not, not_le]
    omega
  · omega

theorem dropWhile_eq_self_of_all {p : Char → Bool} {l : List Char}
    (h : ∀ c ∈ l, p c = false) : l.dropWhile p = l := by
  cases l with
  | nil => rfl
  | cons a l => simp [List.dropWhile_cons, h a (List.mem_cons_self a l)]

theorem jsTrim_eq_self_of_all {l : List Char}
    (h : ∀ c ∈ l, jsWhitespace c = false) : jsTrim ⟨l⟩ = ⟨l⟩ := by
  unfold jsTrim
  show String.mk (((l.dropWhile jsWhitespace).reverse.dropWhile
    jsWhitespace).reverse) = String.mk l
  rw [dropWhile_eq_self_of_all h,
    dropWhile_eq_self_of_all fun c hc => h c (List.mem_reverse.mp hc),
    List.reverse_reverse]

theorem cleanExtractedText_eq_self {l : List Char}
    (hjunk : ∀ c ∈ l, junkChar c = false)
    (hws : ∀ c ∈ l, jsWhitespace c = false)
    (hfc : ∀ c ∈ l, c.toNat ≠ 0xfffc) : cleanExtractedText ⟨l⟩ = ⟨l⟩ := by
  unfold cleanExtractedText
  show jsTrim ⟨((((l.dropWhile junkChar).reverse.dropWhile junkChar).reverse).filter
    fun c => c.toNat ≠ 0xfffc)⟩ = String.mk l
  rw [dropWhile_eq_self_of_all hjunk,
    dropWhile_eq_self_of_all fun c hc => hjunk c (List.mem_reverse.mp hc),
    List.reverse_reverse,
    List.filter_eq_self.mpr fun c hc => decide_eq_true (hfc c hc)]
  exact jsTrim_eq_self_of_all hws

theorem utf8DecodeGo_ascii :
    ∀ (fuel : Nat) (l : List Nat), l.length < fuel → (∀ b ∈ l, b < 0x80) →
      utf8DecodeGo fuel l = l.map Char.ofNat := by
  intro fuel
  induction fuel with
  | zero => intro l h _; omega
  | succ fuel ih =>
    intro l hl hb
    cases l with
    | nil => rfl
    | cons b rest =>
      have hb0 : b < 0x80 := hb b (List.mem_cons_self b rest)
      simp only [utf8DecodeGo, hb0, if_pos, List.map_cons]
      rw [ih rest (by simpa using Nat.lt_of_succ_lt_succ (by simpa using hl))
        fun x hx => hb x (List.mem_cons_of_mem b hx)]

theorem utf8Decode_ascii {l : List Nat} (h : ∀ b ∈ l, b < 0x80) :
    utf8Decode l = l.map Char.ofNat :=
  utf8DecodeGo_ascii (l.length + 1) l (Nat.lt_succ_self _) h

theorem take_ne_nil_of_pos {l : List Nat} {m : Nat} (hm : 0 < m) (hl : l ≠ []) :
    l.take m ≠ [] := by
  cases l with
  | nil => exact absurd rfl hl
  | cons a l =>
    cases m with
    | zero => omega
    | succ m => simp

/-- The tail of the fallback path on a well-formed buffer: with the text
start at the end of `pre`, a positive decoded length, and a printable
payload terminated by the `0x86` marker, `finishExtract` returns the payload
(cut at the decoded length when that is shorter). -/
theorem finishExtract_append (pre payload suffix : List Nat) (msgLen : Nat)
    (hlen : 0 < msgLen) (hpay : payload ≠ [])
    (hbytes : ∀ b ∈ payload, 0x21 ≤ b ∧ b ≤ 0x7e) :
    finishExtract (pre ++ (payload ++ 0x86 :: suffix)) pre.length msgLen =
      some (asciiStr (payload.take (min msgLen payload.length))) := by
  have hdrop : (pre ++ (payload ++ 0x86 :: suffix)).drop pre.length =
      payload ++ 0x86 :: suffix := List.drop_left _ _
  have hfb : findByte 0x86 (payload ++ 0x86 :: suffix) = some payload.length := by
    rw [findByte_append_of_ne (0x86 :: suffix)
      fun d hd => by have := (hbytes d hd).2; omega]
    simp [findByte]
  have hidx : indexOfByteFrom (pre ++ (payload ++ 0x86 :: suffix)) 0x86 pre.length =
      some (payload.length + pre.length) := by
    unfold indexOfByteFrom
    rw [hdrop, hfb]
    rfl
  unfold finishExtract
  rw [hidx]
  simp only [Option.getD_some, gt_iff_lt, hlen, if_pos]
  have hmin : min (pre.length + msgLen) (payload.length + pre.length) =
      pre.length + min msgLen payload.length := by omega
  rw [hmin, hdrop]
  have hsub : pre.length + min msgLen payload.length - pre.length =
      min msgLen payload.length := by omega
  rw [hsub]
  have htake : (payload ++ 0x86 :: suffix).take (min msgLen payload.length) =
      payload.take (min msgLen payload.length) :=
    List.take_append_of_le_length (Nat.min_le_right _ _)
  rw [htake]
  have hmem : ∀ b ∈ payload.take (min msgLen payload.length),
      0x21 ≤ b ∧ b ≤ 0x7e := fun b hb => hbytes b (List.mem_of_mem_take hb)
  rw [utf8Decode_ascii fun b hb => by have := (hmem b hb).2; omega]
  have hchar : ∀ c ∈ (payload.take (min msgLen payload.length)).map Char.ofNat,
      junkChar c = false ∧ jsWhitespace c = false ∧ c.toNat ≠ 0xfffc := by
    intro c hc
    rcases List.mem_map.mp hc with ⟨b, hb, rfl⟩
    exact printable_char_facts (hmem b hb).1 (hmem b hb).2
  rw [cleanExtractedText_eq_self (fun c hc => (hchar c hc).1)
    (fun c hc => (hchar c hc).2.1) (fun c hc => (hchar c hc).2.2)]
  have hne : (payload.take (min msgLen payload.length)).map Char.ofNat ≠ [] := by
    have := take_ne_nil_of_pos (m := min msgLen payload.length)
      (by have : 0 < payload.length := List.length_pos.mpr hpay; omega) hpay
    simpa using this
  have hjs : 0 < jsLength ⟨(payload.take (min msgLen payload.length)).map
      Char.ofNat⟩ := by
    apply jsLength_pos
    intro hc
    apply hne
    have hdata := congrArg String.data hc
    simpa using hdata
  rw [if_pos hjs]
  rfl

theorem mkFallbackBuf_getElem (enc payload suffix : List Nat) (i : Nat)
    (h : i < (nsStringMarker ++ 0x2b :: enc).length) :
    (mkFallbackBuf enc payload suffix)[i]? = (nsStringMarker ++ 0x2b :: enc)[i]? := by
  show ((nsStringMarker ++ 0x2b :: enc) ++ (payload ++ 0x86 :: suffix))[i]? = _
  exact List.getElem?_append_left h

/-- The fallback byte-scanning path on a well-formed buffer, for every
length encoding of the variable-width table. -/
theorem fallback_mkFallbackBuf (enc payload suffix : List Nat) (msgLen : Nat)
    (henc : lenEncoding enc msgLen) (hlen : 0 < msgLen) (hpay : payload ≠ [])
    (hbytes : ∀ b ∈ payload, 0x21 ≤ b ∧ b ≤ 0x7e) :
    fallbackExtract (mkFallbackBuf enc payload suffix) =
      some (asciiStr (payload.take (min msgLen payload.length))) := by
  have h1 : findSeq nsStringMarker (mkFallbackBuf enc payload suffix) = some 0 :=
    findSeq_append_self nsStringMarker (0x2b :: (enc ++ (payload ++ 0x86 :: suffix)))
  have h2 : indexOfByteFrom (mkFallbackBuf enc payload suffix) 0x2b (0 + 8) =
      some 8 := by
    show (findByte 0x2b ((mkFallbackBuf enc payload suffix).drop (0 + 8))).map
      (· + (0 + 8)) = some 8
    have hd : (mkFallbackBuf enc payload suffix).drop (0 + 8) =
        0x2b :: (enc ++ (payload ++ 0x86 :: suffix)) :=
      List.drop_left nsStringMarker _
    rw [hd]
    simp [findByte]
  cases enc with
  | nil => exact henc.elim
  | cons b0 enc1 =>
  cases enc1 with
  | nil =>
    obtain ⟨hL, hm⟩ := henc
    have h3 : (mkFallbackBuf [b0] payload suffix).get? (8 + 1) = some b0 := rfl
    simp only [fallbackExtract, h1, h2, h3]
    rw [if_pos (show (8 : Nat) < 0 + 80 by norm_num), if_pos hL, hm]
    have hsp : mkFallbackBuf [b0] payload suffix =
        (nsStringMarker ++ [0x2b, b0]) ++ (payload ++ 0x86 :: suffix) := by
      simp [mkFallbackBuf, nsStringMarker]
    rw [hsp]
    have hlenpre : (8 + 1 + 1 : Nat) = (nsStringMarker ++ [0x2b, b0]).length := by
      simp [nsStringMarker]
    rw [hlenpre]
    exact finishExtract_append _ payload suffix b0 (hm ▸ hlen) hpay hbytes
  | cons b1 enc2 =>
  cases enc2 with
  | nil => exact henc.elim
  | cons b2 enc3 =>
  cases enc3 with
  | nil =>
    obtain ⟨hb, hm⟩ := henc
    subst hb
    have h3 : (mkFallbackBuf [0x81, b1, b2] payload suffix).get? (8 + 1) =
      some 0x81 := rfl
    have h4 : (mkFallbackBuf [0x81, b1, b2] payload suffix).get? (8 + 1 + 1) =
      some b1 := rfl
    have h5 : (mkFallbackBuf [0x81, b1, b2] payload suffix).get? (8 + 1 + 2) =
      some b2 := rfl
    simp only [fallbackExtract, h1, h2, h3, h4, h5]
    rw [if_pos (show (8 : Nat) < 0 + 80 by norm_num),
      if_neg (show ¬((0x81 : Nat) < 0x80) by norm_num), if_pos trivial, hm]
    have hsp : mkFallbackBuf [0x81, b1, b2] payload suffix =
        (nsStringMarker ++ [0x2b, 0x81, b1, b2]) ++ (payload ++ 0x86 :: suffix) := by
      simp [mkFallbackBuf, nsStringMarker]
    rw [hsp]
    have hlenpre : (8 + 1 + 3 : Nat) =
        (nsStringMarker ++ [0x2b, 0x81, b1, b2]).length := by
      simp [nsStringMarker]
    rw [hlenpre]
    exact finishExtract_append _ payload suffix _ (hm ▸ hlen) hpay hbytes
  | cons b3 enc4 =>
  cases enc4 with
  | nil =>
    obtain ⟨hb, hm⟩ := henc
    subst hb
    have h3 : (mkFallbackBuf [0x82, b1, b2, b3] payload suffix).get? (8 + 1) =
      some 0x82 := rfl
    have h4 : (mkFallbackBuf [0x82, b1, b2, b3] payload suffix).get? (8 + 1 + 1) =
      some b1 := rfl
    have h5 : (mkFallbackBuf [0x82, b1, b2, b3] payload suffix).get? (8 + 1 + 2) =
      some b2 := rfl
    have h6 : (mkFallbackBuf [0x82, b1, b2, b3] payload suffix).get? (8 + 1 + 3) =
      some b3 := rfl
    simp only [fallbackExtract, h1, h2, h3, h4, h5, h6, Option.getD_some]
    rw [if_pos (show (8 : Nat) < 0 + 80 by norm_num),
      if_neg (show ¬((0x82 : Nat) < 0x80) by norm_num),
      if_neg (show ¬((0x82 : Nat) = 0x81) by norm_num), if_pos trivial, hm]
    have hsp : mkFallbackBuf [0x82, b1, b2, b3] payload suffix =
        (nsStringMarker ++ [0x2b, 0x82, b1, b2, b3]) ++
          (payload ++ 0x86 :: suffix) := by
      simp [mkFallbackBuf, nsStringMarker]
    rw [hsp]
    have hlenpre : (8 + 1 + 4 : Nat) =
        (nsStringMarker ++ [0x2b, 0x82, b1, b2, b3]).length := by
      simp [nsStringMarker]
    rw [hlenpre]
    exact finishExtract_append _ payload suffix _ (hm ▸ hlen) hpay hbytes
  | cons b4 enc5 =>
  cases enc5 with
  | nil =>
    obtain ⟨hb, hm⟩ := henc
    subst hb
    have h3 : (mkFallbackBuf [0x83, b1, b2, b3, b4] payload suffix).get? (8 + 1) =
      some 0x83 := rfl
    have h4 : (mkFallbackBuf [0x83, b1, b2, b3, b4] payload suffix).get?
      (8 + 1 + 1) = some b1 := rfl
    have h5 : (mkFallbackBuf [0x83, b1, b2, b3, b4] payload suffix).get?
      (8 + 1 + 2) = some b2 := rfl
    have h6 : (mkFallbackBuf [0x83, b1, b2, b3, b4] payload suffix).get?
      (8 + 1 + 3) = some b3 := rfl
    have h7 : (mkFallbackBuf [0x83, b1, b2, b3, b4] payload suffix).get?
      (8 + 1 + 4) = some b4 := rfl
    simp only [fallbackExtract, h1, h2, h3, h4, h5, h6, h7]
    rw [if_pos (show (8 : Nat) < 0 + 80 by norm_num),
      if_neg (show ¬((0x83 : Nat) < 0x80) by norm_num),
      if_neg (show ¬((0x83 : Nat) = 0x81) by norm_num),
      if_neg (show ¬((0x83 : Nat) = 0x82) by norm_num), if_pos trivial, hm]
    have hsp : mkFallbackBuf [0x83, b1, b2, b3, b4] payload suffix =
        (nsStringMarker ++ [0x2b, 0x83, b1, b2, b3, b4]) ++
          (payload ++ 0x86 :: suffix) := by
      simp [mkFallbackBuf, nsStringMarker]
    rw [hsp]
    have hlenpre : (8 + 1 + 5 : Nat) =
        (nsStringMarker ++ [0x2b, 0x83, b1, b2, b3, b4]).length := by
      simp [nsStringMarker]
    rw [hlenpre]
    exact finishExtract_append _ payload suffix _ (hm ▸ hlen) hpay hbytes
  | cons b5 enc6 => exact henc.elim

/-! ## Claims C6–C7: the binary text extractor -/

/-- C6 counterexample: for the buffer `NSString ++ 0x2b ++ 0x00 ++ "Hi" ++
0x86` the variable-width table decodes length 0 (`0x00 < 0x80` is "the byte
is the length"), so the claimed rule "text ends at min(start + length,
position of 0x86)" yields the empty range `[10, min(10+0, 12))` — yet
`extract` returns `"Hi"`: for a zero length the code reads through to the
end marker instead. -/
theorem C6_counterexample :
    extractTextFromAttributedBody noPlist (some zeroLenBuf) = some "Hi" ∧
    indexOfByteFrom zeroLenBuf 0x86 10 = some 12 ∧
    (zeroLenBuf.drop 10).take (min (10 + 0) 12 - 10) = [] := by
  refine ⟨by decide, by decide, by decide⟩

/-- **C6 (amended)**: extractor fallback round-trip.  For a buffer that is
not parseable as a structured archive and consists of the `NSString` marker,
the `0x2b` length-prefix marker, any length encoding of the variable-width
table (value < 0x80 is the length itself; 0x81/0x82/0x83 announce 2/3/4
little-endian length bytes), a non-empty printable payload and the `0x86`
end marker, `extract` returns the payload cut at
min(start + length, position of 0x86) — **provided the decoded length is
positive** (a zero length instead reads through to the end marker, per the
counterexample).  In particular the `"Hello"` buffer with length byte `0x05`
returns exactly `"Hello"` (see the witness). -/
theorem C6_fallback_extraction (parse : List Nat → Option PlistTop)
    (enc payload suffix : List Nat) (msgLen : Nat)
    (hparse : parse (mkFallbackBuf enc payload suffix) = none)
    (henc : lenEncoding enc msgLen) (hlen : 0 < msgLen)
    (hpay : payload ≠ []) (hbytes : ∀ b ∈ payload, 0x21 ≤ b ∧ b ≤ 0x7e) :
    extractTextFromAttributedBody parse (some (mkFallbackBuf enc payload suffix)) =
      some (asciiStr (payload.take (min msgLen payload.length))) := by
  simp only [extractTextFromAttributedBody, hparse]
  exact fallback_mkFallbackBuf enc payload suffix msgLen henc hlen hpay hbytes

/-- C6 witness: the spec's `"Hello"` buffer through the amended theorem. -/
theorem C6_witness :
    (noPlist helloBuf = none ∧ lenEncoding [0x05] 5 ∧ (0 : Nat) < 5 ∧
      helloPayload ≠ [] ∧ ∀ b ∈ helloPayload, 0x21 ≤ b ∧ b ≤ 0x7e) ∧
    extractTextFromAttributedBody noPlist (some helloBuf) = some "Hello" := by
  refine ⟨⟨rfl, show (0x05 : Nat) < 0x80 ∧ 5 = 0x05 by decide, by decide,
    by decide, by decide⟩, ?_⟩
  have h := C6_fallback_extraction noPlist [0x05] helloPayload [] 5 rfl
    (show (0x05 : Nat) < 0x80 ∧ 5 = 0x05 by decide) (by decide) (by decide)
    (by decide)
  exact h.trans (by decide)

/-- **C7**: extractor totality.  The embedding of `extract` is a total
function (any exception in either path degrades to null by the enclosing
`try`/`catch`, which the model folds into `none`); `extract(null) = null`;
`extract` of any buffer the structured parser rejects that is empty or
contains no `NSString` marker is null. -/
theorem C7_extractor_totality (parse : List Nat → Option PlistTop) :
    extractTextFromAttributedBody parse none = none ∧
    (parse [] = none → extractTextFromAttributedBody parse (some []) = none) ∧
    (∀ buf, parse buf = none → (∀ i, ¬∃ t, nsStringMarker ++ t = buf.drop i) →
      extractTextFromAttributedBody parse (some buf) = none) := by
  refine ⟨rfl, ?_, ?_⟩
  · intro hp
    simp only [extractTextFromAttributedBody, hp]
    rfl
  · intro buf hp hnm
    simp only [extractTextFromAttributedBody, hp]
    show fallbackExtract buf = none
    unfold fallbackExtract
    rw [findSeq_eq_none (by decide) hnm]

/-- C7 witness: a marker-free three-byte buffer yields null. -/
theorem C7_witness :
    noPlist [1, 2, 3] = none ∧
    extractTextFromAttributedBody noPlist (some [1, 2, 3]) = none := by
  refine ⟨rfl, ?_⟩
  refine (C7_extractor_totality noPlist).2.2 [1, 2, 3] rfl ?_
  intro i hcon
  obtain ⟨t, ht⟩ := hcon
  have h := congrArg List.length ht
  rw [List.length_append, List.length_drop,
    show nsStringMarker.length = 8 from rfl,
    show ([1, 2, 3] : List Nat).length = 3 from rfl] at h
  omega

/-! ## Claim C8: the contact filter of GET /search -/

/-- C8 counterexample: with one indexed entry in conversation 1 and a filter
naming the unknown contact `"X"`, the resolved allowed-chat set is empty, so
the route's `allowedChatIds.size > 0` guard skips filtering entirely: the
conversation-1 entry is returned and counted instead of being dropped. -/
theorem C8_counterexample :
    allowedChatIds envUnknown ["X"] = [] ∧
    (searchRoute envUnknown stX "x" 1 20 ["X"]).total = 1 ∧
    (searchRoute envUnknown stX "x" 1 20 ["X"]).results.map
      SearchResultRow.conversation_id = [1] := by
  refine ⟨by decide, by decide, by decide⟩

/-- **C8 (amended)**: query filter correctness **when the contact filter
resolves to a non-empty chat-id set**.  Under that proviso the result set is
the substring matches intersected with the allowed conversations, the
reported total counts the filtered matches, and every returned row's
conversation lies in the allowed set.  When the filter resolves to the empty
set (e.g. every requested contact id is unknown), the route returns the
unfiltered matches instead of none — the counterexample. -/
theorem C8_filter_correctness (env : RouteEnv) (st : IndexStore) (q : String)
    (page limit : Nat) (cids : List String)
    (hq : jsTrim q ≠ "") (hc : cids ≠ []) (ha : allowedChatIds env cids ≠ []) :
    searchFiltered env st q cids =
      (searchCandidates st q).filter
        (fun r => (allowedChatIds env cids).contains r.2.chat_id) ∧
    (searchRoute env st q page limit cids).total =
      (searchFiltered env st q cids).length ∧
    ∀ row ∈ (searchRoute env st q page limit cids).results,
      row.conversation_id ∈ allowedChatIds env cids := by
  have hf : searchFiltered env st q cids =
      (searchCandidates st q).filter
        (fun r => (allowedChatIds env cids).contains r.2.chat_id) := by
    show (if cids ≠ [] ∧ allowedChatIds env cids ≠ [] then
        (searchCandidates st q).filter
          (fun r => (allowedChatIds env cids).contains r.2.chat_id)
      else searchCandidates st q) = _
    rw [if_pos ⟨hc, ha⟩]
  refine ⟨hf, ?_, ?_⟩
  · show (if jsTrim q = "" then (⟨[], page, limit, 0⟩ : SearchResponse)
      else ⟨(((searchFiltered env st q cids).drop ((page - 1) * limit)).take
        limit).map (enrichRow env), page, limit,
        (searchFiltered env st q cids).length⟩).total = _
    rw [if_neg hq]
  · intro row hrow
    have hrow' : row ∈ (((searchFiltered env st q cids).drop
        ((page - 1) * limit)).take limit).map (enrichRow env) := by
      have : (searchRoute env st q page limit cids).results =
          (((searchFiltered env st q cids).drop ((page - 1) * limit)).take
            limit).map (enrichRow env) := by
        show (if jsTrim q = "" then (⟨[], page, limit, 0⟩ : SearchResponse)
          else ⟨(((searchFiltered env st q cids).drop ((page - 1) * limit)).take
            limit).map (enrichRow env), page, limit,
            (searchFiltered env st q cids).length⟩).results = _
        rw [if_neg hq]
      exact this ▸ hrow
    obtain ⟨r, hr, hrw⟩ := List.mem_map.mp hrow'
    have hr' : r ∈ searchFiltered env st q cids :=
      List.mem_of_mem_drop (List.mem_of_mem_take hr)
    rw [hf] at hr'
    have hcont := (List.mem_filter.mp hr').2
    subst hrw
    show r.2.chat_id ∈ allowedChatIds env cids
    simpa using hcont

/-- C8 witness: entries across conversations 1, 2, 3 and a filter resolving
to chat 1 yield only conversation-1 results. -/
theorem C8_witness :
    (jsTrim "hit" ≠ "" ∧ (["A"] : List String) ≠ [] ∧
      allowedChatIds envGroupA ["A"] ≠ []) ∧
    (∀ row ∈ (searchRoute envGroupA stABC "hit" 1 20 ["A"]).results,
      row.conversation_id ∈ allowedChatIds envGroupA ["A"]) ∧
    (searchRoute envGroupA stABC "hit" 1 20 ["A"]).total =
      (searchFiltered envGroupA stABC "hit" ["A"]).length := by
  have h := C8_filter_correctness envGroupA stABC "hit" 1 20 ["A"]
    (by decide) (by decide) (by decide)
  exact ⟨⟨by decide, by decide, by decide⟩, h.2.2, h.2.1⟩

/-! ## Helper lemmas: LIKE matching -/

/-- `likeMatchGo` equation: out of fuel. -/
theorem likeMatchGo_zero (p t : List Char) : likeMatchGo 0 p t = false := rfl

/-- `likeMatchGo` equation: literal pattern head against a nonempty text. -/
theorem likeMatchGo_lit (f : Nat) (c : Char) (ps : List Char) (c' : Char)
    (ts : List Char) (h1 : c ≠ '%') (h2 : c ≠ '_') :
    likeMatchGo (f + 1) (c :: ps) (c' :: ts) =
      ((asciiLower c == asciiLower c') && likeMatchGo f ps ts) := by
  show (if c = '%' then likeMatchGo f ps (c' :: ts) || likeMatchGo f (c :: ps) ts
    else if c = '_' then likeMatchGo f ps ts
    else (asciiLower c == asciiLower c') && likeMatchGo f ps ts) = _
  rw [if_neg h1, if_neg h2]

/-- `likeMatchGo` equation: literal pattern head against the empty text. -/
theorem likeMatchGo_lit_nil (f : Nat) (c : Char) (ps : List Char)
    (h1 : c ≠ '%') (h2 : c ≠ '_') :
    likeMatchGo (f + 1) (c :: ps) [] = false := by
  show (if c = '%' then likeMatchGo f ps [] else if c = '_' then false
    else false) = false
  rw [if_neg h1, if_neg h2]

/-- `likeMatchGo` equation: `%` head against the empty text. -/
theorem likeMatchGo_pct_nil (f : Nat) (ps : List Char) :
    likeMatchGo (f + 1) ('%' :: ps) [] = likeMatchGo f ps [] := by
  show (if ('%' : Char) = '%' then likeMatchGo f ps []
    else if ('%' : Char) = '_' then false else false) = likeMatchGo f ps []
  rw [if_pos rfl]

/-- `likeMatchGo` equation: `%` head against a nonempty text. -/
theorem likeMatchGo_pct_cons (f : Nat) (ps : List Char) (c : Char)
    (ts : List Char) :
    likeMatchGo (f + 1) ('%' :: ps) (c :: ts) =
      (likeMatchGo f ps (c :: ts) || likeMatchGo f ('%' :: ps) ts) := by
  show (if ('%' : Char) = '%' then
      likeMatchGo f ps (c :: ts) || likeMatchGo f ('%' :: ps) ts
    else if ('%' : Char) = '_' then likeMatchGo f ps ts
    else (asciiLower '%' == asciiLower c) && likeMatchGo f ps ts) = _
  rw [if_pos rfl]

/-- A wildcard-free pattern followed by `%` accepts only texts whose
case-folded form begins with the case-folded pattern. -/
theorem likeGo_literal_imp (q : List Char) (hw : ∀ c ∈ q, c ≠ '%' ∧ c ≠ '_') :
    ∀ (f : Nat) (t : List Char), likeMatchGo f (q ++ ['%']) t = true →
      q.map asciiLower <+: t.map asciiLower := by
  induction q with
  | nil => exact fun f t _ => ⟨t.map asciiLower, by simp⟩
  | cons c q ih =>
    intro f t h
    have hc := hw c (List.mem_cons_self c q)
    cases f with
    | zero => exact Bool.noConfusion (show false = true from h)
    | succ f =>
      rw [List.cons_append] at h
      cases t with
      | nil =>
        rw [likeMatchGo_lit_nil f c _ hc.1 hc.2] at h
        exact Bool.noConfusion h
      | cons c' ts =>
        rw [likeMatchGo_lit f c _ c' ts hc.1 hc.2, Bool.and_eq_true] at h
        have heq : asciiLower c = asciiLower c' := eq_of_beq h.1
        obtain ⟨rest, hrest⟩ :=
          ih (fun x hx => hw x (List.mem_cons_of_mem c hx)) f ts h.2
        exact ⟨rest, by simp [heq, hrest]⟩

/-- The `%pattern%` SQL pattern for a wildcard-free query accepts only texts
whose case-folded form contains the case-folded query as an infix. -/
theorem likeGo_pct_imp (f : Nat) :
    ∀ (q t : List Char), (∀ c ∈ q, c ≠ '%' ∧ c ≠ '_') →
      likeMatchGo f ('%' :: (q ++ ['%'])) t = true →
      q.map asciiLower <:+: t.map asciiLower := by
  induction f with
  | zero => exact fun q t _ h => Bool.noConfusion (show false = true from h)
  | succ f ih =>
    intro q t hw h
    cases t with
    | nil =>
      rw [likeMatchGo_pct_nil] at h
      exact (likeGo_literal_imp q hw f [] h).isInfix
    | cons c ts =>
      rw [likeMatchGo_pct_cons, Bool.or_eq_true] at h
      cases h with
      | inl h => exact (likeGo_literal_imp q hw f (c :: ts) h).isInfix
      | inr h =>
        obtain ⟨s, e, hse⟩ := ih q ts hw h
        exact ⟨asciiLower c :: s, e, by simp [hse]⟩

/-- Lift to `likeMatch` and `substrCI`. -/
theorem likeMatch_imp_substrCI (q : String) (t : List Char)
    (hw : noWildcard q) (h : likeMatch (likePattern q) t = true) :
    lowerChars q <:+: t.map asciiLower := by
  have h' : likeMatchGo ((likePattern q).length + t.length + 1)
      ('%' :: (q.data ++ ['%'])) t = true := h
  exact likeGo_pct_imp _ q.data t hw h'

/-- Membership in the filtered matches implies membership in the scanned
candidates. -/
theorem mem_searchFiltered (env : RouteEnv) (st : IndexStore) (q : String)
    (cids : List String) (r : Nat × IndexEntry)
    (h : r ∈ searchFiltered env st q cids) : r ∈ searchCandidates st q := by
  have h' : r ∈ (if cids ≠ [] ∧ allowedChatIds env cids ≠ [] then
      (searchCandidates st q).filter
        (fun x => (allowedChatIds env cids).contains x.2.chat_id)
    else searchCandidates st q) := h
  by_cases hc : cids ≠ [] ∧ allowedChatIds env cids ≠ []
  · rw [if_pos hc] at h'
    exact List.mem_of_mem_filter h'
  · rw [if_neg hc] at h'
    exact h'

/-- Every scanned candidate passed the SQL `LIKE` test. -/
theorem mem_searchCandidates (st : IndexStore) (q : String)
    (r : Nat × IndexEntry) (h : r ∈ searchCandidates st q) :
    likeMatch (likePattern q) r.2.text.data = true := by
  have h1 : r ∈ sortLe geByDate
      (st.entries.filter (fun e => likeMatch (likePattern q) e.2.text.data)) :=
    List.mem_of_mem_take h
  have h2 := (perm_sortLe geByDate _).mem_iff.mp h1
  exact (List.mem_filter.mp h2).2

/-- The scanned candidates are ordered by date descending. -/
theorem pairwise_searchCandidates (st : IndexStore) (q : String) :
    (searchCandidates st q).Pairwise (fun a b => b.2.date ≤ a.2.date) := by
  have htot : ∀ x y : Nat × IndexEntry,
      geByDate x y = true ∨ geByDate y x = true := by
    intro x y
    simp only [geByDate, decide_eq_true_eq]
    omega
  have htrans : ∀ x y z : Nat × IndexEntry, geByDate x y = true →
      geByDate y z = true → geByDate x z = true := by
    intro x y z
    simp only [geByDate, decide_eq_true_eq]
    omega
  have h := pairwise_sortLe htot htrans
    (st.entries.filter (fun e => likeMatch (likePattern q) e.2.text.data))
  have h2 : (searchCandidates st q).Pairwise (fun a b => geByDate a b = true) :=
    h.sublist (List.take_sublist _ _)
  exact h2.imp (fun hxy => of_decide_eq_true hxy)

/-- The filtered matches are a sublist of the scanned candidates. -/
theorem searchFiltered_sublist (env : RouteEnv) (st : IndexStore) (q : String)
    (cids : List String) :
    List.Sublist (searchFiltered env st q cids) (searchCandidates st q) := by
  have h : searchFiltered env st q cids =
      (if cids ≠ [] ∧ allowedChatIds env cids ≠ [] then
        (searchCandidates st q).filter
          (fun x => (allowedChatIds env cids).contains x.2.chat_id)
      else searchCandidates st q) := rfl
  by_cases hc : cids ≠ [] ∧ allowedChatIds env cids ≠ []
  · rw [h, if_pos hc]
    exact List.filter_sublist _
  · rw [h, if_neg hc]

/-! ## Claim C9: substring match, scan bound, ordering -/

/-- C9 counterexample: the route passes the raw query into the SQL `LIKE`
pattern, so wildcard characters keep their meta-meaning.  The query `"_"`
matches the entry text `"x"` (and is returned), yet `"_"` is not a substring
of `"x"` under any case rule. -/
theorem C9_counterexample :
    (searchRoute envUnknown stX "_" 1 20 []).results.map
      SearchResultRow.text = ["x"] ∧
    ¬ substrCI "_" "x" ∧ ¬ ("_".data <:+: "x".data) := by
  refine ⟨by decide, ?_, by decide⟩
  show ¬ (lowerChars "_" <:+: lowerChars "x")
  decide

/-- **C9 (amended)**: for a non-blank query **containing no SQL `LIKE`
wildcard characters (`%`, `_`)**, every returned result's text contains the
query as a substring under the fixed ASCII-case-insensitive rule; the scan
is capped at `MAX_SEARCH_SCAN_LIMIT` candidates so the reported total never
exceeds it; the candidates (and hence the paginated slice) are ordered by
date descending; the slice is `[(page-1)*limit, (page-1)*limit + limit)` of
the filtered matches and `total` counts the filtered matches.  For queries
with wildcards the substring property fails (see the counterexample). -/
theorem C9_search_properties (env : RouteEnv) (st : IndexStore) (q : String)
    (page limit : Nat) (cids : List String)
    (hq : jsTrim q ≠ "") (hw : noWildcard q) :
    (∀ row ∈ (searchRoute env st q page limit cids).results,
      substrCI q row.text) ∧
    (searchRoute env st q page limit cids).total ≤ MAX_SEARCH_SCAN_LIMIT ∧
    (searchCandidates st q).Pairwise (fun a b => b.2.date ≤ a.2.date) ∧
    (((searchFiltered env st q cids).drop ((page - 1) * limit)).take
      limit).Pairwise (fun a b => b.2.date ≤ a.2.date) ∧
    (searchRoute env st q page limit cids).results =
      (((searchFiltered env st q cids).drop ((page - 1) * limit)).take
        limit).map (enrichRow env) ∧
    (searchRoute env st q page limit cids).total =
      (searchFiltered env st q cids).length := by
  have hres : (searchRoute env st q page limit cids).results =
      (((searchFiltered env st q cids).drop ((page - 1) * limit)).take
        limit).map (enrichRow env) := by
    show (if jsTrim q = "" then (⟨[], page, limit, 0⟩ : SearchResponse)
      else ⟨(((searchFiltered env st q cids).drop ((page - 1) * limit)).take
        limit).map (enrichRow env), page, limit,
        (searchFiltered env st q cids).length⟩).results = _
    rw [if_neg hq]
  have htot : (searchRoute env st q page limit cids).total =
      (searchFiltered env st q cids).length := by
    show (if jsTrim q = "" then (⟨[], page, limit, 0⟩ : SearchResponse)
      else ⟨(((searchFiltered env st q cids).drop ((page - 1) * limit)).take
        limit).map (enrichRow env), page, limit,
        (searchFiltered env st q cids).length⟩).total = _
    rw [if_neg hq]
  have hpairsc := pairwise_searchCandidates st q
  refine ⟨?_, ?_, hpairsc, ?_, hres, htot⟩
  · intro row hrow
    rw [hres] at hrow
    obtain ⟨r, hr, hrw⟩ := List.mem_map.mp hrow
    have hr' : r ∈ searchFiltered env st q cids :=
      List.mem_of_mem_drop (List.mem_of_mem_take hr)
    have hlike := mem_searchCandidates st q r
      (mem_searchFiltered env st q cids r hr')
    subst hrw
    show lowerChars q <:+: lowerChars r.2.text
    exact likeMatch_imp_substrCI q r.2.text.data hw hlike
  · rw [htot]
    have h1 : (searchFiltered env st q cids).length ≤
        (searchCandidates st q).length :=
      (searchFiltered_sublist env st q cids).length_le
    have h2 : (searchCandidates st q).length ≤ MAX_SEARCH_SCAN_LIMIT := by
      show ((sortLe geByDate (st.entries.filter
        (fun e => likeMatch (likePattern q) e.2.text.data))).take
          MAX_SEARCH_SCAN_LIMIT).length ≤ MAX_SEARCH_SCAN_LIMIT
      rw [List.length_take]
      omega
    omega
  · have hsub : List.Sublist (((searchFiltered env st q cids).drop
        ((page - 1) * limit)).take limit) (searchCandidates st q) :=
      ((List.take_sublist _ _).trans (List.drop_sublist _ _)).trans
        (searchFiltered_sublist env st q cids)
    exact hpairsc.sublist hsub

/-- C9 witness: the wildcard-free query `"hit"` over the three-chat store. -/
theorem C9_witness :
    (jsTrim "hit" ≠ "" ∧ noWildcard "hit") ∧
    (∀ row ∈ (searchRoute envUnknown stABC "hit" 1 20 []).results,
      substrCI "hit" row.text) ∧
    (searchRoute envUnknown stABC "hit" 1 20 []).total ≤
      MAX_SEARCH_SCAN_LIMIT ∧
    (searchCandidates stABC "hit").Pairwise
      (fun a b => b.2.date ≤ a.2.date) := by
  have h := C9_search_properties envUnknown stABC "hit" 1 20 []
    (by decide) (fun c hc => by
      refine ⟨?_, ?_⟩ <;> · intro hh; subst hh; revert hc; decide)
  exact ⟨⟨by decide, fun c hc => by
    refine ⟨?_, ?_⟩ <;> · intro hh; subst hh; revert hc; decide⟩,
    h.1, h.2.1, h.2.2.1⟩

/-! ## Claim C10: blank query fast path -/

/-- **C10**: blank query fast path.  For a query that trims to the empty
string the route returns `{results: [], total: 0}` (echoing page and limit),
and the response is one constant independent of the index store — the branch
returns before the store is consulted — a normal empty result, not an
error. -/
theorem C10_blank_fast_path (env : RouteEnv) (q : String) (page limit : Nat)
    (cids : List String) (hq : jsTrim q = "") :
    ∀ st : IndexStore, searchRoute env st q page limit cids =
      ⟨[], page, limit, 0⟩ := by
  intro st
  show (if jsTrim q = "" then (⟨[], page, limit, 0⟩ : SearchResponse)
    else ⟨(((searchFiltered env st q cids).drop ((page - 1) * limit)).take
      limit).map (enrichRow env), page, limit,
      (searchFiltered env st q cids).length⟩) = _
  rw [if_pos hq]

/-- C10 witness: the whitespace-only query `"   "` against a nonempty
store. -/
theorem C10_witness :
    jsTrim "   " = "" ∧
    searchRoute envUnknown stABC "   " 1 20 [] = ⟨[], 1, 20, 0⟩ :=
  ⟨by decide, C10_blank_fast_path envUnknown "   " 1 20 [] (by decide) stABC⟩
